import Mathlib

/-!
Verification development for the `release-notes-builder` consolidation pipeline.

The Python sources under `release_notes_builder/` are shallowly embedded here:

* `schema.py` — the Draft-7 release schema check (`is_valid_release`) is embedded as a
  fixed-depth structural check on a JSON value type (the schema is not recursive, so
  no recursion on JSON is needed).  JSON numbers are modelled as integers: every
  number the pipeline produces or checks ("prs" entries) is an integer, and the
  schema's only numeric constraint is `{"type": "integer"}`.
* `llm_consolidator.py` — `_ensure_required_defaults`, `_has_minimal_content`,
  `_extract_owner_repo_and_number`, `_coerce_legacy`, `build_user_message` and the
  `consolidate_openai` retry/repair state machine.  Python exceptions are modelled
  with `Except`; the outside world (the OpenAI chat endpoint) is modelled as a
  sequence of responses, each either a JSON parse failure or a parsed JSON value;
  observable actions of the orchestrator (model invocations with their message
  lists and temperature, validation/coercion tier entries, backoff sleeps) are
  recorded in an event trace.  Temperatures and sleep durations are modelled as
  rationals (`1.2` becomes `6/5`).
* `preclass.py` — `detect_conventional_prefix` (named `detect_conventional` here)
  and `classify`.
* `renderer.py` — `_product_for_repo`, `_emoji_for_category` and `render_md`;
  the renderer consumes validated documents, embedded as the typed
  `ReleaseDocument` structure; `datetime.utcnow()` is modelled as an explicit
  `today` string parameter.

String handling: Lean core string functions (`String.splitOn`, `String.trim`, …)
are implemented by well-founded recursion and do not reduce in the kernel, and
they also differ from Python semantics in corner cases.  The `py*` helpers below
re-implement the exact Python operations used by the sources by structural
recursion on character lists.
-/

namespace RNB

/-! ## Python-semantics string helpers -/

/-- Python `str.lower()` (ASCII case folding, which is all the sources rely on). -/
def pyLower (s : String) : String := String.mk (s.data.map Char.toLower)

/-- Python `str.strip()` on a character list: drop whitespace from both ends. -/
def stripChars (l : List Char) : List Char :=
  ((l.dropWhile Char.isWhitespace).reverse.dropWhile Char.isWhitespace).reverse

/-- Python `str.strip()`. -/
def pyStrip (s : String) : String := String.mk (stripChars s.data)

/-- Python `str.strip("/")`: drop `/` characters from both ends. -/
def pyStripSlash (s : String) : String :=
  String.mk (((s.data.dropWhile (· = '/')).reverse.dropWhile (· = '/')).reverse)

/-- Python `sub in s` (substring containment) on character lists. -/
def containsSub (pat : List Char) : List Char → Bool
  | [] => pat.isEmpty
  | c :: rest => pat.isPrefixOf (c :: rest) || containsSub pat rest

/-- Python `sub in s` for strings. -/
def pyContains (s pat : String) : Bool := containsSub pat.data s.data

/-- Index of the first occurrence of `pat`, if any. -/
def findSub (pat : List Char) : List Char → Option Nat
  | [] => if pat.isEmpty then some 0 else none
  | c :: rest =>
    if pat.isPrefixOf (c :: rest) then some 0
    else (findSub pat rest).map (· + 1)

/-- Python `s.startswith(pat)`. -/
def pyStarts (s pat : String) : Bool := pat.data.isPrefixOf s.data

/-- Python `s.endswith(pat)`. -/
def pyEnds (s pat : String) : Bool := pat.data.reverse.isPrefixOf s.data.reverse

/-- Python `s.split(sep)` for a single-character separator (as in
`title.split(" ")` and the `/`-splitting of URL paths).  Like Python, the
result is never empty and empty fields are kept. -/
def chSplit (sep : Char) : List Char → List (List Char)
  | [] => [[]]
  | c :: rest =>
    let r := chSplit sep rest
    if c = sep then [] :: r
    else
      match r with
      | [] => [[c]]
      | g :: gs => (c :: g) :: gs

/-- Python `int(s)` restricted to an optional sign followed by decimal digits
(Python additionally strips whitespace and allows `_` separators; no URL in
scope produces those). Returns `none` where Python `int` raises `ValueError`. -/
def pyInt (l : List Char) : Option Int :=
  let digits (ds : List Char) : Option Nat :=
    if ds.isEmpty then none
    else ds.foldl (fun acc c =>
      match acc with
      | none => none
      | some n => if c.isDigit then some (n * 10 + (c.toNat - '0'.toNat)) else none)
      (some 0)
  match l with
  | '-' :: rest => (digits rest).map (fun n => -(n : Int))
  | '+' :: rest => (digits rest).map (fun n => (n : Int))
  | _ => (digits l).map (fun n => (n : Int))

/-! ## JSON values (the shape of `json.loads` output)

Python dictionaries are insertion-ordered and cannot contain duplicate keys;
they are modelled as association lists, with all lookups taking the first
matching entry. -/

inductive Json where
  | null : Json
  | bool : Bool → Json
  | num : Int → Json
  | str : String → Json
  | arr : List Json → Json
  | obj : List (String × Json) → Json

/-- Python `d[k]` / `d.get(k)` on an object's entry list. -/
def jGet (kvs : List (String × Json)) (k : String) : Option Json :=
  (kvs.find? (fun p => p.1 == k)).map (·.2)

/-- Whether key `k` is present. -/
def hasKeyB (kvs : List (String × Json)) (k : String) : Bool :=
  (kvs.find? (fun p => p.1 == k)).isSome

/-- Python `d.setdefault(k, v)`: insert `(k, v)` at the end iff `k` is absent. -/
def setdefault (kvs : List (String × Json)) (k : String) (v : Json) :
    List (String × Json) :=
  if hasKeyB kvs k then kvs else kvs ++ [(k, v)]

/-- Python truthiness of a JSON value. -/
def jsonTruthy : Json → Bool
  | .null => false
  | .bool b => b
  | .num n => n != 0
  | .str s => !s.data.isEmpty
  | .arr xs => !xs.isEmpty
  | .obj kvs => !kvs.isEmpty

/-! ## `schema.py`: the release schema check

`is_valid_release` runs `Draft7Validator(RELEASE_SCHEMA).is_valid(obj)`.  The
schema is a fixed four-field object contract (extra fields tolerated, missing
required fields or wrongly-typed present fields invalidate); it is embedded as
the corresponding fixed-depth structural check. -/

def isStr : Json → Bool
  | .str _ => true
  | _ => false

def isStrArr : Json → Bool
  | .arr xs => xs.all isStr
  | _ => false

def isIntArr : Json → Bool
  | .arr xs => xs.all (fun x => match x with | .num _ => true | _ => false)
  | _ => false

/-- One entry of `repos[].sections[].items`: an object with a string `text`
and an integer array `prs` (required by the schema). -/
def validItem : Json → Bool
  | .obj kvs =>
    (match jGet kvs "text" with | some v => isStr v | none => false)
    && (match jGet kvs "prs" with | some v => isIntArr v | none => false)
  | _ => false

/-- One entry of `repos[].sections`: object with string `title` and `items`. -/
def validSection : Json → Bool
  | .obj kvs =>
    (match jGet kvs "title" with | some v => isStr v | none => false)
    && (match jGet kvs "items" with
        | some (.arr xs) => xs.all validItem
        | _ => false)
  | _ => false

/-- One entry of `repos`: object with string `name` and `sections`. -/
def validRepo : Json → Bool
  | .obj kvs =>
    (match jGet kvs "name" with | some v => isStr v | none => false)
    && (match jGet kvs "sections" with
        | some (.arr xs) => xs.all validSection
        | _ => false)
  | _ => false

/-- `schema.is_valid_release`. -/
def is_valid_release : Json → Bool
  | .obj kvs =>
    (match jGet kvs "tldr" with | some v => isStrArr v | none => false)
    && (match jGet kvs "repos" with
        | some (.arr xs) => xs.all validRepo
        | _ => false)
    && (match jGet kvs "upgrade_notes" with | some v => isStrArr v | none => false)
    && (match jGet kvs "contributors" with | some v => isStrArr v | none => false)
  | _ => false

/-! ## `llm_consolidator.py`: defaults, minimal content, legacy coercion -/

/-- `_ensure_required_defaults`: on a dict, `setdefault` the four required
keys (in source order) to empty lists; anything else is returned unchanged. -/
def ensure_required_defaults : Json → Json
  | .obj kvs =>
    .obj (setdefault (setdefault (setdefault (setdefault kvs
      "tldr" (.arr [])) "repos" (.arr [])) "upgrade_notes" (.arr []))
      "contributors" (.arr []))
  | j => j

/-- Python `any(x)` over the value `sec.get("items") or []`.  `any` iterates
its argument, testing each element for truthiness; iterating a non-iterable
(number, boolean) raises `TypeError`, modelled as `Except.error`. -/
def anyTruthyIter : Json → Except Unit Bool
  | .arr xs => .ok (xs.any jsonTruthy)
  | .str s => .ok (!s.isEmpty)
  | .obj kvs => .ok (kvs.any (fun p => !p.1.isEmpty))
  | _ => .error ()

/-- Inner loop of `_has_minimal_content` over one repo's `sections` list;
`sec.get("items")` on a non-dict raises `AttributeError`. -/
def minimalSecs : List Json → Except Unit Bool
  | [] => .ok false
  | s :: rest =>
    match s with
    | .obj skv =>
      let raw := match jGet skv "items" with | some v => v | none => .null
      let its := if jsonTruthy raw then raw else .arr []
      match anyTruthyIter its with
      | .error e => .error e
      | .ok true => .ok true
      | .ok false => minimalSecs rest
    | _ => .error ()

/-- Loop of `_has_minimal_content` over `doc.get("repos", [])`. -/
def minimalRepos : List Json → Except Unit Bool
  | [] => .ok false
  | r :: rest =>
    match r with
    | .obj rkv =>
      match (match jGet rkv "sections" with | some v => v | none => .arr []) with
      | .arr ss =>
        match minimalSecs ss with
        | .error e => .error e
        | .ok true => .ok true
        | .ok false => minimalRepos rest
      | _ => .error ()
    | _ => .error ()

/-- `_has_minimal_content`: true iff some `items` array is non-empty (element-wise
truthy, per Python `any`); any exception inside the scan yields `False`. -/
def has_minimal_content (doc : Json) : Bool :=
  match doc with
  | .obj kvs =>
    match (match jGet kvs "repos" with | some v => v | none => .arr []) with
    | .arr rs => match minimalRepos rs with | .ok b => b | .error _ => false
    | _ => false
  | _ => false

/-- The success condition used at every tier of `consolidate_openai`:
`is_valid_release(doc) and _has_minimal_content(doc)`. -/
def validMin (doc : Json) : Bool := is_valid_release doc && has_minimal_content doc

/-- Path component of `urlparse(url)`, for the URL shapes the coercion meets:
with a `://` present the path is everything from the first `/` after the
authority (empty if there is none); otherwise the whole string is the path.
Query/fragment splitting and exotic scheme-validation corner cases of Python's
`urlparse` are outside the shapes exercised here. -/
def urlPath (url : String) : String :=
  match findSub "://".data url.data with
  | none => url
  | some i => String.mk ((url.data.drop (i + 3)).dropWhile (· ≠ '/'))

/-- `_extract_owner_repo_and_number`: split the stripped path on `/`, read
`owner/repo/_/number`; any failure (fewer than four components, or a number
`int()` rejects) is caught and yields `("", -1)`. -/
def extract_owner_repo_and_number (url : String) : String × Int :=
  match chSplit '/' (pyStripSlash (urlPath url)).data with
  | owner :: repo :: _ :: numTok :: _ =>
    match pyInt numTok with
    | some n => (String.mk owner ++ "/" ++ String.mk repo, n)
    | none => ("", -1)
  | _ => ("", -1)

/-! ### First-seen insertion-ordered grouping

Python's insertion-ordered dicts of lists (`grouped.setdefault(k, []).append(v)`
in `_coerce_legacy`, `products.setdefault(k, []).append(v)` in the renderer)
are modelled by `groupFS`. -/

/-- Append `v` under key `k`, creating the key at the end on first sight. -/
def upsert {α : Type} (ps : List (String × List α)) (k : String) (v : α) :
    List (String × List α) :=
  if ps.any (fun p => p.1 == k) then
    ps.map (fun p => if p.1 == k then (p.1, p.2 ++ [v]) else p)
  else ps ++ [(k, [v])]

/-- Group key-value pairs, keys in first-seen order, values in input order. -/
def groupFS {α : Type} (l : List (String × α)) : List (String × List α) :=
  l.foldl (fun ps p => upsert ps p.1 p.2) []

/-- The legacy category keys harvested by `_coerce_legacy`, in source order. -/
def CATEGORY_TITLES : List String :=
  ["Breaking Changes", "Features", "Fixes", "Performance", "Docs", "Chore"]

/-- Value of `it.get("title") or it.get("description") or ""`. -/
def textOf (ikv : List (String × Json)) : Json :=
  let descOr : Json :=
    match jGet ikv "description" with
    | some d => if jsonTruthy d then d else .str ""
    | none => .str ""
  match jGet ikv "title" with
  | some t => if jsonTruthy t then t else descOr
  | none => descOr

/-- Result of `_extract_owner_repo_and_number(it.get("url") or "")`: a truthy
non-string url makes `urlparse` raise inside the extractor's own
`try/except`, which also yields `("", -1)`. -/
def extractFromItem (ikv : List (String × Json)) : String × Int :=
  match jGet ikv "url" with
  | some (.str s) => extract_owner_repo_and_number s
  | some v =>
    if jsonTruthy v then ("", -1) else extract_owner_repo_and_number ""
  | none => extract_owner_repo_and_number ""

/-- One legacy item becomes a `(repository, item-object)` pair: repository from
the URL (sentinel `"unknown/unknown"` if unparseable), `text` from
title/description fallback, `prs = [number]` only for a positive parsed
number.  A non-dict item raises (`it.get` on it fails). -/
def legacyItemEntry : Json → Except Unit (String × Json)
  | .obj ikv =>
    let rn0 := (extractFromItem ikv).1
    let num := (extractFromItem ikv).2
    let rn := if rn0.data.isEmpty then "unknown/unknown" else rn0
    .ok (rn, .obj [("text", textOf ikv),
                   ("prs", .arr (if 0 < num then [.num num] else []))])
  | _ => .error ()

/-- The pairs harvested from `(doc.get(cat) ...) or []`: a falsy value gives
no items, a truthy non-list raises when iterated (its elements are not
dicts, or it is not iterable at all). -/
def mapItemsOrRaise : Json → Except Unit (List (String × Json))
  | .arr xs => xs.mapM legacyItemEntry
  | _ => .error ()

def catItems (kvs : List (String × Json)) (cat : String) :
    Except Unit (List (String × Json)) :=
  match jGet kvs cat with
  | none => .ok []
  | some v => if jsonTruthy v then mapItemsOrRaise v else .ok []

/-- Total view of `catItems` (its `.ok` value, `[]` on error); used to state
properties of the coerced document. -/
def catItemsD (kvs : List (String × Json)) (cat : String) :
    List (String × Json) :=
  match catItems kvs cat with
  | .ok ps => ps
  | .error _ => []

/-- Whether the trigger condition of `_coerce_legacy` holds:
`set(doc.keys())` intersects `{"Features", "Fixes", "Chore"}`. -/
def hasLegacyKeyB (kvs : List (String × Json)) : Bool :=
  ["Features", "Fixes", "Chore"].any (fun k => (kvs.map Prod.fst).contains k)

/-- `_coerce_legacy`: raise unless a legacy key is present; otherwise, per
category (source order), group the parsed items by repository and append one
section per category per repository, repositories ordered by first touch;
default the other three top-level fields to empty lists. -/
def coerce_legacy (doc : Json) : Except Unit Json :=
  match doc with
  | .obj kvs =>
    if hasLegacyKeyB kvs then
      match CATEGORY_TITLES.mapM (fun cat =>
          (catItems kvs cat).map (fun ps =>
            (groupFS ps).map (fun g =>
              (g.1, Json.obj [("title", Json.str cat),
                              ("items", Json.arr g.2)])))) with
      | .ok sectionLists =>
        let events := sectionLists.flatten
        let repos := (groupFS events).map (fun r =>
          Json.obj [("name", Json.str r.1), ("sections", Json.arr r.2)])
        .ok (Json.obj [("tldr", Json.arr []), ("repos", Json.arr repos),
                       ("upgrade_notes", Json.arr []),
                       ("contributors", Json.arr [])])
      | .error e => .error e
    else .error ()
  | _ => .error ()

/-! ## `consolidate_openai`: the retry/repair state machine

The external model is a sequence of responses, one per invocation in order:
`none` models a response `json.loads` rejects (parse failure), `some d` a
response parsing to the JSON value `d`.  The orchestrator's observable actions
are recorded as one event list per invocation ("phase"):
`invoke` (the exact chat message list and temperature), `validate` (the
validation tier entered, carrying the default-filled document it checks),
`coerce` (the legacy-coercion tier entered, carrying its input) and `sleep`
(backoff, carrying the duration in seconds).  The `OPENAI_API_KEY` guard and
logging are environment/IO preamble with no effect on the protocol and are not
modelled. -/

/-- A chat message (role, content). -/
structure Msg where
  role : String
  content : String
deriving DecidableEq

/-- One observable orchestrator action. -/
inductive Ev where
  | invoke : List Msg → ℚ → Ev
  | validate : Json → Ev
  | coerce : Json → Ev
  | sleep : ℚ → Ev

/-- The fixed system prompt of `llm_consolidator.py` (`SYSTEM_PROMPT`). -/
def SYSTEM_PROMPT : String :=
  "You are a Release Notes Consolidator. Write concise, user-facing release notes. " ++
  "Prefer concrete impact and product language over internal implementation. " ++
  "Group by Features, Fixes, Chore. " ++
  "Merge duplicate PRs if they describe the same user-visible change. " ++
  "Flag risky or ambiguous items. Keep bullets short (≤ 18 words). " ++
  "Use the provided labels and commit prefixes when helpful, but prioritize clarity for non-engineers. " ++
  "Respond with strict JSON only, no prose. " ++
  "Always include all repos present in the input and ensure each repo has sections with non-empty items if relevant PRs exist. " ++
  "First, produce tldr as 2–4 bullets summarizing the main focus areas of the week based on category frequencies and recurring area/* labels across repos."

/-- The corrective instruction appended for the repair invocation. -/
def repairInstruction : String :=
  "Your previous JSON did not match the required schema or had no content. " ++
  "Return a corrected JSON that strictly matches the schema and includes " ++
  "non-empty sections with items for all repos that have PRs."

/-- `build_user_message`: window header, then per snapshot the repo name, a
fixed label line and the JSON dump of its PR summaries, then the schema
sketch.  A snapshot is `(repo full name, json.dumps of its "prs" list)`; the
dump's internal format plays no role in any claim, so it enters the model as
the already-serialized string. -/
def build_user_message (snapshots : List (String × String)) (since_ref until_ref : String) : String :=
  let parts : List String :=
    ["Release window: " ++ since_ref ++ " → " ++ until_ref]
    ++ (snapshots.map (fun snap =>
          ["Repo: " ++ snap.1, "PRs snapshot (JSON):", snap.2, ""])).flatten
    ++ ["Output schema: \x7b tldr: string[], repos: [\x7b name: string, sections: [\x7b title: string, items: [\x7b text: string, prs: number[] \x7d] \x7d]\x7d], upgrade_notes: string[], contributors: string[] \x7d"]
  String.intercalate "\n" parts

/-- Message list of the three numbered attempts: system prompt plus the user
message built once before the loop. -/
def attemptMsgs (userMsg : String) : List Msg :=
  [⟨"system", SYSTEM_PROMPT⟩, ⟨"user", userMsg⟩]

/-- Message list of the repair invocation: the original two messages plus the
appended corrective instruction. -/
def repairMsgs (userMsg : String) : List Msg :=
  [⟨"system", SYSTEM_PROMPT⟩, ⟨"user", userMsg⟩, ⟨"user", repairInstruction⟩]

/-- Backoff duration after the failed attempt of 0-based index `i`:
`time.sleep(1.2 * (attempt + 1))`. -/
def sleepDur (i : Nat) : ℚ := (6 / 5 : ℚ) * (i + 1)

/-- Outcome of the validate/coerce tiers of one attempt on response `d?`:
parse the response, fill defaults, accept if schema-valid with minimal
content, otherwise try legacy coercion (whose exceptions are swallowed) and
accept its default-filled result under the same check. -/
def attemptResult (d? : Option Json) : Option Json :=
  match d? with
  | none => none
  | some d =>
    let d' := ensure_required_defaults d
    if validMin d' then some d'
    else
      match coerce_legacy d' with
      | .ok c =>
        let c' := ensure_required_defaults c
        if validMin c' then some c' else none
      | .error _ => none

/-- Events of the attempt with 0-based index `i`: the invocation, then the
tiers actually entered, then the backoff sleep iff the attempt failed. -/
def attemptEvs (userMsg : String) (temp : ℚ) (i : Nat) (d? : Option Json) : List Ev :=
  Ev.invoke (attemptMsgs userMsg) temp ::
  (match d? with
   | none => [Ev.sleep (sleepDur i)]
   | some d =>
     let d' := ensure_required_defaults d
     if validMin d' then [Ev.validate d']
     else
       match coerce_legacy d' with
       | .ok c =>
         if validMin (ensure_required_defaults c) then
           [Ev.validate d', Ev.coerce d']
         else [Ev.validate d', Ev.coerce d', Ev.sleep (sleepDur i)]
       | .error _ => [Ev.validate d', Ev.coerce d', Ev.sleep (sleepDur i)])

/-- The `for attempt in range(3)` loop, from attempt index `i` with `n`
attempts left: phases of the performed attempts, and the accepted document if
one attempt succeeded. -/
def attemptsLoop (resp : Nat → Option Json) (userMsg : String) (temp : ℚ) :
    Nat → Nat → List (List Ev) × Option Json
  | _, 0 => ([], none)
  | i, n + 1 =>
    match attemptResult (resp i) with
    | some d => ([attemptEvs userMsg temp i (resp i)], some d)
    | none =>
      let rest := attemptsLoop resp userMsg temp (i + 1) n
      (attemptEvs userMsg temp i (resp i) :: rest.1, rest.2)

/-- Errors escaping `consolidate_openai`:  `parseFailure` is the
`json.JSONDecodeError` of the unguarded `json.loads` on the repair response;
`schemaError d` is the `jsonschema.ValidationError` raised by
`assert_valid_release(data)`, carrying the offending default-filled document
(and, in the source, the validator's explanation of the failure);
`emptyDoc` is the final `ValueError("LLM produced an empty release document (no items)")`. -/
inductive ConsErr where
  | parseFailure : ConsErr
  | schemaError : Json → ConsErr
  | emptyDoc : ConsErr

/-- Outcome of the repair invocation on response `d?`: same default-filling,
validation and coercion-fallback sequence as the attempts, but failure is
fatal — `assert_valid_release(data)` raises a `schemaError` on the
default-filled document when it is schema-invalid, and otherwise the
empty-document `ValueError` is raised. -/
def repairResult : Option Json → Except ConsErr Json
  | none => .error .parseFailure
  | some d =>
    let d' := ensure_required_defaults d
    if validMin d' then .ok d'
    else
      match coerce_legacy d' with
      | .ok c =>
        if validMin (ensure_required_defaults c) then .ok (ensure_required_defaults c)
        else if is_valid_release d' then .error .emptyDoc
        else .error (.schemaError d')
      | .error _ =>
        if is_valid_release d' then .error .emptyDoc
        else .error (.schemaError d')

/-- Events of the repair invocation. -/
def repairEvs (userMsg : String) : Option Json → List Ev
  | none => [Ev.invoke (repairMsgs userMsg) 0]
  | some d =>
    let d' := ensure_required_defaults d
    if validMin d' then [Ev.invoke (repairMsgs userMsg) 0, Ev.validate d']
    else [Ev.invoke (repairMsgs userMsg) 0, Ev.validate d', Ev.coerce d']

/-- Events and outcome of the repair invocation on response `d?`. -/
def repairPhase (userMsg : String) (d? : Option Json) :
    List Ev × Except ConsErr Json :=
  (repairEvs userMsg d?, repairResult d?)

/-- The whole `consolidate_openai` protocol on a prebuilt user message: three
attempts, then — only if all failed — the single repair invocation at
temperature `0.0`, whose failure is fatal. -/
def consolidate (resp : Nat → Option Json) (userMsg : String) (temp : ℚ) :
    List (List Ev) × Except ConsErr Json :=
  match attemptsLoop resp userMsg temp 0 3 with
  | (phs, some d) => (phs, .ok d)
  | (phs, none) =>
    let rp := repairPhase userMsg (resp 3)
    (phs ++ [rp.1], rp.2)

/-- `consolidate_openai` proper: the user message is built once from the
snapshots and window and reused by every phase. -/
def consolidate_openai (resp : Nat → Option Json)
    (snapshots : List (String × String)) (since_ref until_ref : String)
    (temp : ℚ) : List (List Ev) × Except ConsErr Json :=
  consolidate resp (build_user_message snapshots since_ref until_ref) temp

/-! ## `preclass.py`: the classifier

Only the `PR` fields `classify` reads are carried (`number`, `author`, `url`
and the rest never influence its result).  `labels` is lowercased into a
Python set; sets preserve no usable order, but `classify` only tests
membership except for the `area/` pick, where at most one matching label is
expected (per the spec) — the lowered list stands in for the set. -/

structure PRrec where
  title : String
  labels : List String
  body_excerpt : String

/-- The conventional-commit keywords, in the regex alternation order. -/
def CONV_KINDS : List String := ["feat", "fix", "perf", "docs", "chore", "refactor"]

/-- Whether `rest` matches `(!:|:)` at its start. -/
def colonAt (rest : List Char) : Bool :=
  match rest with
  | ':' :: _ => true
  | '!' :: ':' :: _ => true
  | _ => false

/-- Whether `rest` matches the regex tail `\(.*\)(!:|:)`: some closing `)`
followed by `:` or `!:`, with `.` not crossing a newline. -/
def parenColon : List Char → Bool
  | [] => false
  | c :: rest => (c = ')' && colonAt rest) || (c ≠ '\n' && parenColon rest)

/-- `detect_conventional_prefix(title)` (returned kind, lowercased): matches
`^(feat|fix|perf|docs|chore|refactor)(!:|:|\(.*\)(!:|:))` case-insensitively
against the stripped title.  No keyword is a prefix of another, so at most
one can match at the start. -/
def detect_conventional (title : String) : Option String :=
  let t := (pyLower (pyStrip title)).data
  CONV_KINDS.find? (fun k =>
    k.data.isPrefixOf t &&
    (let rest := t.drop k.data.length
     colonAt rest || (match rest with
                      | '(' :: inner => parenColon inner
                      | _ => false)))

/-- `ClassifiedPR` minus the wrapped record itself. -/
structure Classified where
  category : String
  area : Option String
  is_breaking : Bool
deriving DecidableEq

/-- First space-delimited token of the title (`title.split(" ")[0]`). -/
def firstToken (title : String) : List Char :=
  (chSplit ' ' title.data).headD []

/-- The breaking detector of `classify`: any of — lowered label `breaking`,
`breaking change` in the lowered excerpt, lowered label `breaking-change`, or
a `!` in the first space-delimited token of a non-empty title. -/
def breakingOf (pr : PRrec) : Bool :=
  (pr.labels.map pyLower).contains "breaking"
  || pyContains (pyLower pr.body_excerpt) "breaking change"
  || (pr.labels.map pyLower).contains "breaking-change"
  || (if !pr.title.data.isEmpty then (firstToken pr.title).contains '!' else false)

/-- The label-based mapping of `classify` (the `if breaking / elif ...`
chain over the lowered label set, defaulting to `Chore`). -/
def labelCat (labels : List String) (breaking : Bool) : String :=
  if breaking then "Features"
  else if ["feature", "enhancement", "type:feat", "feat"].any labels.contains then "Features"
  else if ["bug", "fix", "type:bug"].any labels.contains then "Fixes"
  else if ["perf", "performance"].any labels.contains then "Fixes"
  else if ["docs", "documentation"].any labels.contains then "Chore"
  else if ["refactor", "chore"].any labels.contains then "Chore"
  else "Chore"

/-- The conventional-commit override of `classify`
(`conventional = detect_conventional_prefix(title) or ""`). -/
def convOverride (conventional : String) (cat : String) : String :=
  if conventional == "feat" then "Features"
  else if conventional == "fix" then "Fixes"
  else if conventional == "perf" then "Fixes"
  else if conventional == "docs" then "Chore"
  else if conventional == "refactor" || conventional == "chore" then "Chore"
  else cat

/-- `classify`: breaking detection, label mapping (first match in the
`elif` chain wins), then the conventional-commit override. -/
def classify (pr : PRrec) : Classified :=
  let labels := pr.labels.map pyLower
  ⟨convOverride ((detect_conventional pr.title).getD "")
      (labelCat labels (breakingOf pr)),
   labels.find? (fun l => pyStarts l "area/"),
   breakingOf pr⟩

/-! ## `renderer.py`

`render_md` consumes the validated document; it is embedded over the typed
shape (`ReleaseDocument`), with an optional `title` key (an extra field the
schema tolerates and the renderer reads) and the falsy-string fallbacks of the
`or` defaults preserved. -/

structure RdItem where
  text : String
  prs : List Int

structure RdSection where
  title : String
  items : List RdItem

structure RdRepo where
  name : String
  sections : List RdSection

structure ReleaseDocument where
  title : Option String
  tldr : List String
  repos : List RdRepo
  upgrade_notes : List String
  contributors : List String

/-- `_product_for_repo`: priority-ordered substring/suffix rules over the
lowercased full name; no match falls through to the full name itself. -/
def product_for_repo (full_name : String) : String :=
  let name := pyLower full_name
  if pyEnds name "/ya-webapp" || pyContains name "syrup" then "Syrup"
  else if pyContains name "/hq" || pyEnds name "/hq" then "hq"
  else if pyContains name "api" then "API"
  else if pyEnds name "/ya-webapp" then "Webapp"
  else full_name

/-- `_emoji_for_category`. -/
def emoji_for_category (cat : String) : String :=
  let c := pyLower cat
  if pyStarts c "feature" then ":sparkles:"
  else if pyStarts c "fix" then ":bug:"
  else if pyStarts c "chore" then ":hammer_and_wrench:"
  else ""

/-- One rendered bullet: `f"- {emoji} {text}".strip()` plus the space-joined
PR links when any PR number is present. -/
def bulletFor (emoji text rname : String) (prs : List Int) : String :=
  let pr_links := String.intercalate " " (prs.map (fun n =>
    "[PR #" ++ toString n ++ "](https://github.com/" ++ rname ++ "/pull/" ++ toString n ++ ")"))
  let bullet := pyStrip ("- " ++ emoji ++ " " ++ text)
  if pr_links.data.isEmpty then bullet else bullet ++ " " ++ pr_links

/-- The `(product, bullet)` pairs in traversal order (repos, then sections,
then items), exactly as the collection loop visits them. -/
def bulletsOf (doc : ReleaseDocument) : List (String × String) :=
  (doc.repos.map (fun repo =>
    let rname := if repo.name.data.isEmpty then "unknown/unknown" else repo.name
    let product := product_for_repo rname
    (repo.sections.map (fun sec =>
      let emoji := emoji_for_category (pyStrip sec.title)
      sec.items.map (fun item =>
        (product, bulletFor emoji item.text rname item.prs)))).flatten)).flatten

/-- The `products` dict after the collection loop: first-seen product order,
input-order bullets per product. -/
def collectProducts (doc : ReleaseDocument) : List (String × List String) :=
  groupFS (bulletsOf doc)

/-- The product blocks: per product (dict order) a bold heading, its bullets,
and a blank line, skipping products with no bullets. -/
def productLines (doc : ReleaseDocument) : List String :=
  ((collectProducts doc).map (fun q =>
    if q.2.isEmpty then [] else ("**" ++ q.1 ++ "**") :: q.2 ++ [""])).flatten

/-- Value of `doc.get("title") or "Offchain Release"`. -/
def renderTitle (doc : ReleaseDocument) : String :=
  match doc.title with
  | some t => if t.data.isEmpty then "Offchain Release" else t
  | none => "Offchain Release"

/-- Title line and (when `tldr` is non-empty) the focus-areas block with its
first ten bullets. -/
def headerLines (doc : ReleaseDocument) (today : String) : List String :=
  ["# " ++ renderTitle doc ++ " (" ++ today ++ ")", ""]
  ++ (if doc.tldr.isEmpty then []
      else "Focus areas for the week:" :: (doc.tldr.take 10).map (fun b => "- " ++ b) ++ [""])

/-- The trailing upgrade-notes block. -/
def upgradeLines (doc : ReleaseDocument) : List String :=
  if doc.upgrade_notes.isEmpty then []
  else "Upgrade notes:" :: doc.upgrade_notes.map (fun n => "- " ++ n) ++ [""]

/-- All lines of `render_md` in order. -/
def renderLines (doc : ReleaseDocument) (today : String) : List String :=
  headerLines doc today ++ productLines doc ++ upgradeLines doc

/-- `render_md`: the joined line list (`datetime.utcnow().strftime` passed in
as `today`). -/
def render_md (doc : ReleaseDocument) (today : String) : String :=
  String.intercalate "\n" (renderLines doc today)

/-! ## Statement-side views of the schema check (for claim C6) -/

/-- The four required top-level keys, in schema order. -/
def REQUIRED_KEYS : List String := ["tldr", "repos", "upgrade_notes", "contributors"]

/-- Whether some required top-level field is absent. -/
def missingRequired (kvs : List (String × Json)) : Bool :=
  !(REQUIRED_KEYS.all (fun k => hasKeyB kvs k))

/-- Field `k`, when present, satisfies `p` (vacuously true when absent). -/
def conformsAt (kvs : List (String × Json)) (k : String) (p : Json → Bool) : Bool :=
  match jGet kvs k with
  | some v => p v
  | none => true

/-- The `repos` subschema: an array of valid repo entries. -/
def reposConform : Json → Bool
  | .arr xs => xs.all validRepo
  | _ => false

/-- Every present required field conforms to its subschema. -/
def presentConform (kvs : List (String × Json)) : Bool :=
  conformsAt kvs "tldr" isStrArr && conformsAt kvs "repos" reposConform
  && conformsAt kvs "upgrade_notes" isStrArr && conformsAt kvs "contributors" isStrArr

/-- Whether a coercion attempt succeeded (used to state that a raised
coercion produces no document at all). -/
def exceptIsOk : Except Unit Json → Bool
  | .ok _ => true
  | .error _ => false

/-- The spec's legacy round-trip example input:
`{"Features": [{"title": "Add X", "url": "https://github.com/o/r/pull/5"}]}`. -/
def exLegacyKvs : List (String × Json) :=
  [("Features", .arr [.obj [("title", .str "Add X"),
    ("url", .str "https://github.com/o/r/pull/5")]])]

/-- The expected coercion of `exLegacyKvs`:
`repos: [{name: "o/r", sections: [{title: "Features", items: [{text: "Add X", prs: [5]}]}]}]`
with the other three fields defaulted. -/
def exLegacyOut : Json :=
  .obj [("tldr", .arr []),
        ("repos", .arr [.obj [("name", .str "o/r"),
          ("sections", .arr [.obj [("title", .str "Features"),
            ("items", .arr [.obj [("text", .str "Add X"),
                                  ("prs", .arr [.num 5])]])]])]]),
        ("upgrade_notes", .arr []),
        ("contributors", .arr [])]

/-- A legacy document exercising the extra harvested keys: one item under
`Docs` (parsed to repository `a/b`) next to an empty `Fixes` trigger key. -/
def exDocsKvs : List (String × Json) :=
  [("Docs", .arr [.obj [("title", .str "d"),
    ("url", .str "https://github.com/a/b/pull/2")]]),
   ("Fixes", .arr [])]

/-! ## Statement-side views of the consolidation trace (for claims C1, C2) -/

/-- The backoff durations of a trace, in order. -/
def sleepsOf (evs : List Ev) : List ℚ :=
  evs.filterMap (fun e => match e with | .sleep d => some d | _ => none)

/-- The invocations of a trace: message list and temperature, in order. -/
def invokesOf (evs : List Ev) : List (List Msg × ℚ) :=
  evs.filterMap (fun e => match e with | .invoke m t => some (m, t) | _ => none)

/-- The admissible shapes of a single phase: one leading invocation; then at
most one validation tier, at most one coercion tier — the coercion only ever
after the validation — and possibly a trailing backoff. -/
def tierDiscipline : List Ev → Bool
  | .invoke _ _ :: rest =>
    match rest with
    | [] => true
    | [.sleep _] => true
    | [.validate _] => true
    | [.validate _, .coerce _] => true
    | [.validate _, .coerce _, .sleep _] => true
    | _ => false
  | _ => false

/-- Failure of the coercion fallback on a default-filled document: the
coercion raises, or its default-filled result fails the validation check. -/
def coerceFails (d' : Json) : Bool :=
  match coerce_legacy d' with
  | .error _ => true
  | .ok c => !validMin (ensure_required_defaults c)

/-- Whether an outcome is the schema-validation error. -/
def isSchemaErrorB : Except ConsErr Json → Bool
  | .error (.schemaError _) => true
  | _ => false

/-- A schema-valid document with a section but no items: passes the schema,
fails minimal content, and is not legacy-shaped. -/
def emptyValidDoc : Json :=
  .obj [("tldr", .arr []),
        ("repos", .arr [.obj [("name", .str "a/b"),
          ("sections", .arr [.obj [("title", .str "Features"),
                                   ("items", .arr [])]])]]),
        ("upgrade_notes", .arr []),
        ("contributors", .arr [])]

/-! ## First-seen grouping, characterized

`dedupFS` keeps the first occurrence of every key — the key order of a Python
dict built by repeated `setdefault`.  `groupFS_eq` then characterizes the
whole grouped dict: its keys in first-seen order, each carrying the filtered,
input-ordered values. -/

/-- Add a key at the end unless already present. -/
def insFS (ks : List String) (k : String) : List String :=
  if k ∈ ks then ks else ks ++ [k]

/-- Keys in order of first occurrence. -/
def dedupFS (l : List String) : List String := l.foldl insFS []

/-- Value list under key `k` of a grouped dict (`[]` when absent). -/
def getVal {α : Type} (ps : List (String × List α)) (k : String) : List α :=
  match ps.find? (fun p => p.1 == k) with
  | some p => p.2
  | none => []

/-! ## Statement-side views of the renderer grouping (for claim C8)

These two definitions follow the spec's words directly — products in the
order first encountered during traversal, and per product the bullets in
traversal order — to be compared with the renderer's own dict-based fold. -/

/-- Product labels in first-encounter order over the traversal. -/
def spec_firstSeenProducts (doc : ReleaseDocument) : List String :=
  dedupFS ((bulletsOf doc).map Prod.fst)

/-- The bullets of one product, in traversal order. -/
def spec_bulletsForProduct (doc : ReleaseDocument) (p : String) : List String :=
  ((bulletsOf doc).filter (fun q => q.1 == p)).map Prod.snd

/-! ## Statement-side views of the legacy coercion (for claims C3 and C10)

The per-item mapping (`legacyItemEntry`: URL parse, sentinel repository,
title/description fallback, positive-number `prs`) is shared with the
embedding itself; these definitions re-express the grouping result — one
section per category per repository, repositories in first-touch order,
items in input order — to be compared with the dict-based construction. -/

/-- An optional field that is either absent, falsy, or a string; the shape
under which `it.get("title") or it.get("description") or ""` is a string. -/
def strOkB (o : Option Json) : Bool :=
  match o with
  | some v => !jsonTruthy v || isStr v
  | none => true

/-- A well-formed legacy item: a mapping whose `title` and `description`,
when present and truthy, are strings. -/
def itemWF : Json → Bool
  | .obj ikv => strOkB (jGet ikv "title") && strOkB (jGet ikv "description")
  | _ => false

/-- A truthy category value of coercible shape: a sequence of well-formed
items. -/
def itemsArrWF : Json → Bool
  | .arr xs => xs.all itemWF
  | _ => false

/-- A well-formed legacy category value: absent, falsy, or a sequence of
well-formed items. -/
def catWF (kvs : List (String × Json)) (cat : String) : Bool :=
  match jGet kvs cat with
  | none => true
  | some v => !jsonTruthy v || itemsArrWF v

/-- All six harvested categories are well-formed. -/
def legacyWF (kvs : List (String × Json)) : Bool :=
  CATEGORY_TITLES.all (catWF kvs)

/-- The coerced items filed under repository `rn` for category `cat`, in
input order. -/
def itemsFor (kvs : List (String × Json)) (cat rn : String) : List Json :=
  ((catItemsD kvs cat).filter (fun p => p.1 == rn)).map Prod.snd

/-- One coerced section. -/
def sectionJson (cat : String) (its : List Json) : Json :=
  .obj [("title", .str cat), ("items", .arr its)]

/-- The sections of repository `rn`: one per category holding items parsed
to `rn`, in category order, categories with no such items skipped. -/
def sectionsFor (kvs : List (String × Json)) (rn : String) : List Json :=
  (CATEGORY_TITLES.map (fun cat =>
    if (itemsFor kvs cat rn).isEmpty then []
    else [sectionJson cat (itemsFor kvs cat rn)])).flatten

/-- The coerced repositories, in order of first touch over the whole
category/item traversal. -/
def legacyRepoNames (kvs : List (String × Json)) : List String :=
  dedupFS ((CATEGORY_TITLES.flatMap (fun cat => catItemsD kvs cat)).map Prod.fst)

/-- The full coerced document, as described by the spec: repositories grouped
by parsed name with their per-category sections, and the other three
top-level fields defaulted to empty sequences. -/
def coercedDoc (kvs : List (String × Json)) : Json :=
  .obj [("tldr", .arr []),
        ("repos", .arr ((legacyRepoNames kvs).map (fun rn =>
          Json.obj [("name", .str rn), ("sections", .arr (sectionsFor kvs rn))]))),
        ("upgrade_notes", .arr []),
        ("contributors", .arr [])]

theorem insFS_mem {ks : List String} {k : String} (h : k ∈ ks) :
    insFS ks k = ks := by
  simp [insFS, h]

theorem insFS_not_mem {ks : List String} {k : String} (h : k ∉ ks) :
    insFS ks k = ks ++ [k] := by
  simp [insFS, h]

theorem mem_insFS {ks : List String} {k x : String} :
    x ∈ insFS ks k ↔ x ∈ ks ∨ x = k := by
  by_cases h : k ∈ ks
  · rw [insFS_mem h]
    constructor
    · exact Or.inl
    · rintro (hx | rfl)
      exacts [hx, h]
  · rw [insFS_not_mem h]
    simp

theorem mem_foldl_insFS {l : List String} :
    ∀ {ks x}, x ∈ l.foldl insFS ks ↔ x ∈ ks ∨ x ∈ l := by
  induction l with
  | nil => intro ks x; simp
  | cons a t ih =>
    intro ks x
    rw [List.foldl_cons, ih, mem_insFS]
    simp only [List.mem_cons]
    tauto

theorem mem_dedupFS {l : List String} {x : String} :
    x ∈ dedupFS l ↔ x ∈ l := by
  unfold dedupFS; rw [mem_foldl_insFS]; simp

theorem nodup_foldl_insFS {l : List String} :
    ∀ {ks : List String}, ks.Nodup → (l.foldl insFS ks).Nodup := by
  induction l with
  | nil => intro ks h; simpa using h
  | cons a t ih =>
    intro ks hks
    rw [List.foldl_cons]
    apply ih
    by_cases h : a ∈ ks
    · rw [insFS_mem h]; exact hks
    · rw [insFS_not_mem h]
      rw [List.nodup_append]
      refine ⟨hks, by simp, ?_⟩
      intro x hx hx'
      simp only [List.mem_singleton] at hx'
      exact h (hx' ▸ hx)

theorem nodup_dedupFS {l : List String} : (dedupFS l).Nodup :=
  nodup_foldl_insFS List.nodup_nil

theorem dedupFS_append_singleton (l : List String) (x : String) :
    dedupFS (l ++ [x]) = insFS (dedupFS l) x := by
  unfold dedupFS
  rw [List.foldl_append]
  rfl

theorem foldl_insFS_dedupFS (l : List String) :
    ∀ ks, (dedupFS l).foldl insFS ks = l.foldl insFS ks := by
  induction l using List.reverseRecOn with
  | nil => intro ks; rfl
  | append_singleton t x ih =>
    intro ks
    rw [dedupFS_append_singleton, List.foldl_append]
    by_cases hx : x ∈ dedupFS t
    · have hxt : x ∈ t := mem_dedupFS.mp hx
      rw [insFS_mem hx, ih, List.foldl_cons, List.foldl_nil]
      rw [insFS_mem (mem_foldl_insFS.mpr (Or.inr hxt))]
    · rw [insFS_not_mem hx, List.foldl_append, ih, List.foldl_cons, List.foldl_nil]

theorem dedupFS_flatMap_dedupFS {β : Type} (cats : List β) (g : β → List String) :
    dedupFS (cats.flatMap (fun c => dedupFS (g c))) = dedupFS (cats.flatMap g) := by
  unfold dedupFS
  suffices h : ∀ ks, (cats.flatMap (fun c => dedupFS (g c))).foldl insFS ks
      = (cats.flatMap g).foldl insFS ks by exact h []
  induction cats with
  | nil => intro ks; rfl
  | cons c cs ih =>
    intro ks
    rw [List.flatMap_cons, List.flatMap_cons, List.foldl_append, List.foldl_append,
      foldl_insFS_dedupFS, ih]

theorem filter_fst_eq_nil {α : Type} {l : List (String × α)} {k : String}
    (h : k ∉ l.map Prod.fst) : l.filter (fun p => p.1 == k) = [] := by
  rw [List.filter_eq_nil_iff]
  intro p hp hpk
  exact h (List.mem_map.mpr ⟨p, hp, by simpa using hpk⟩)

/-- The grouped dict, fully characterized: keys are the pair keys in
first-seen order, and each key holds the input-order values filed under it. -/
theorem groupFS_eq {α : Type} (l : List (String × α)) :
    groupFS l = (dedupFS (l.map Prod.fst)).map
      (fun k => (k, (l.filter (fun p => p.1 == k)).map Prod.snd)) := by
  induction l using List.reverseRecOn with
  | nil => rfl
  | append_singleton t p ih =>
    obtain ⟨k, v⟩ := p
    have hl : groupFS (t ++ [(k, v)]) = upsert (groupFS t) k v := by
      unfold groupFS
      rw [List.foldl_append]
      rfl
    rw [hl, ih, List.map_append]
    simp only [List.map_cons, List.map_nil]
    rw [dedupFS_append_singleton]
    by_cases hk : k ∈ dedupFS (t.map Prod.fst)
    · have hany : (((dedupFS (t.map Prod.fst)).map
          (fun k' => (k', (t.filter (fun p => p.1 == k')).map Prod.snd))).any
          (fun p => p.1 == k)) = true := by
        rw [List.any_eq_true]
        exact ⟨(k, (t.filter (fun p => p.1 == k)).map Prod.snd),
          List.mem_map.mpr ⟨k, hk, rfl⟩, by simp⟩
      unfold upsert
      rw [hany, insFS_mem hk]
      simp only [if_true, List.map_map]
      apply List.map_congr_left
      intro k' hk'
      by_cases hkk : k' = k
      · subst hkk
        simp [List.filter_append, List.filter_cons]
      · have hbeq : (k' == k) = false := by simpa using hkk
        have hbeq2 : (k == k') = false := by
          simpa using fun h => hkk h.symm
        simp [Function.comp_def, hbeq, hbeq2, hkk, List.filter_append, List.filter_cons]
    · have hany : (((dedupFS (t.map Prod.fst)).map
          (fun k' => (k', (t.filter (fun p => p.1 == k')).map Prod.snd))).any
          (fun p => p.1 == k)) = false := by
        rw [List.any_eq_false]
        intro p hp
        rcases List.mem_map.mp hp with ⟨k', hk', rfl⟩
        simp only [beq_iff_eq]
        exact fun hkk => hk (hkk ▸ hk')
      have hknot : k ∉ t.map Prod.fst := fun h => hk (mem_dedupFS.mpr h)
      unfold upsert
      rw [hany, insFS_not_mem hk]
      simp only [Bool.false_eq_true, if_false, List.map_append]
      congr 1
      · apply List.map_congr_left
        intro k' hk'
        have hkk : k' ≠ k := fun h => hk (h ▸ hk')
        have hbeq : (k == k') = false := by
          simpa using fun h => hkk h.symm
        simp [List.filter_append, List.filter_cons, hbeq]
      · simp [List.filter_append, List.filter_cons, filter_fst_eq_nil hknot]

theorem getVal_cons_self {α : Type} (a : String) (v : List α)
    (t : List (String × List α)) : getVal ((a, v) :: t) a = v := by
  unfold getVal
  rw [List.find?_cons_of_pos _ (by simp)]

theorem getVal_cons_ne {α : Type} {a k : String} (v : List α)
    (t : List (String × List α)) (h : a ≠ k) :
    getVal ((a, v) :: t) k = getVal t k := by
  unfold getVal
  rw [List.find?_cons_of_neg _ (by simpa using h)]

theorem getVal_map_char {α : Type} (ks : List String) (f : String → List α) (k : String) :
    getVal (ks.map (fun k' => (k', f k'))) k = if k ∈ ks then f k else [] := by
  induction ks with
  | nil => simp [getVal]
  | cons a t ih =>
    rw [List.map_cons]
    by_cases hak : a = k
    · subst hak
      rw [getVal_cons_self]
      simp
    · rw [getVal_cons_ne _ _ hak, ih]
      have hiff : k ∈ a :: t ↔ k ∈ t := by
        rw [List.mem_cons]
        constructor
        · rintro (h | h)
          · exact absurd h.symm hak
          · exact h
        · exact Or.inr
      by_cases hkt : k ∈ t
      · rw [if_pos hkt, if_pos (hiff.mpr hkt)]
      · rw [if_neg hkt, if_neg (fun h => hkt (hiff.mp h))]

theorem getVal_groupFS {α : Type} (l : List (String × α)) (k : String) :
    getVal (groupFS l) k = (l.filter (fun p => p.1 == k)).map Prod.snd := by
  rw [groupFS_eq, getVal_map_char]
  split
  · rfl
  · next h =>
    rw [filter_fst_eq_nil (fun hm => h (mem_dedupFS.mpr hm))]
    rfl

/-! ## Characterizing the legacy coercion -/

theorem groupFS_keys {α : Type} (l : List (String × α)) :
    (groupFS l).map Prod.fst = dedupFS (l.map Prod.fst) := by
  rw [groupFS_eq, List.map_map]
  simp [Function.comp_def]

theorem mem_map_fst_iff {α : Type} (l : List (String × α)) (k : String) :
    k ∈ l.map Prod.fst ↔ l.filter (fun p => p.1 == k) ≠ [] := by
  constructor
  · rintro hk hnil
    obtain ⟨p, hp, rfl⟩ := List.mem_map.mp hk
    have : p ∈ l.filter (fun p' => p'.1 == p.1) :=
      List.mem_filter.mpr ⟨hp, by simp⟩
    rw [hnil] at this
    cases this
  · intro hne
    by_contra hk
    exact hne (filter_fst_eq_nil hk)

theorem filter_map_keyed {α : Type} (ks : List String) (f : String → α) (rn : String)
    (hnd : ks.Nodup) :
    (ks.map (fun k => (k, f k))).filter (fun p => p.1 == rn)
      = if rn ∈ ks then [(rn, f rn)] else [] := by
  induction ks with
  | nil => simp
  | cons a t ih =>
    obtain ⟨hat, hts⟩ := List.nodup_cons.mp hnd
    rw [List.map_cons, List.filter_cons]
    by_cases har : a = rn
    · subst har
      have hnt : a ∉ ((t.map (fun k => (k, f k))).map Prod.fst) := by
        rw [List.map_map]
        simpa [Function.comp_def] using hat
      rw [if_pos (by simp), filter_fst_eq_nil hnt, if_pos (List.mem_cons_self a t)]
    · have hbeq : ((a, f a).1 == rn) = false := by simpa using har
      rw [hbeq]
      simp only [Bool.false_eq_true, if_false]
      rw [ih hts]
      by_cases hrt : rn ∈ t
      · rw [if_pos hrt, if_pos (List.mem_cons_of_mem a hrt)]
      · rw [if_neg hrt, if_neg (by
          intro hmem
          rcases List.mem_cons.mp hmem with h | h
          · exact har h.symm
          · exact hrt h)]

theorem flatten_filter_map {α β : Type} (ls : List (List α)) (p : α → Bool) (g : α → β) :
    (ls.flatten.filter p).map g = (ls.map (fun l => (l.filter p).map g)).flatten := by
  induction ls with
  | nil => rfl
  | cons l t ih =>
    rw [List.flatten_cons, List.filter_append, List.map_append, ih, List.map_cons,
      List.flatten_cons]

theorem textOf_isStr (ikv : List (String × Json))
    (ht : strOkB (jGet ikv "title") = true)
    (hd : strOkB (jGet ikv "description") = true) :
    isStr (textOf ikv) = true := by
  unfold strOkB at ht hd
  simp only [textOf]
  cases hti : jGet ikv "title" with
  | none =>
    show isStr (match jGet ikv "description" with
      | some d => if jsonTruthy d = true then d else Json.str ""
      | none => Json.str "") = true
    cases hde : jGet ikv "description" with
    | none => rfl
    | some d =>
      have hd' : (!jsonTruthy d || isStr d) = true := by
        rw [hde] at hd
        exact hd
      cases hdr : jsonTruthy d
      · simp [hdr, isStr]
      · have hisd : isStr d = true := by
          rw [hdr] at hd'
          simpa using hd'
        simp [hdr, hisd]
  | some t =>
    have ht' : (!jsonTruthy t || isStr t) = true := by
      rw [hti] at ht
      exact ht
    show isStr (if jsonTruthy t = true then t
      else match jGet ikv "description" with
        | some d => if jsonTruthy d = true then d else Json.str ""
        | none => Json.str "") = true
    cases htr : jsonTruthy t
    · simp only [htr, Bool.false_eq_true, if_false]
      cases hde : jGet ikv "description" with
      | none => rfl
      | some d =>
        have hd' : (!jsonTruthy d || isStr d) = true := by
          rw [hde] at hd
          exact hd
        cases hdr : jsonTruthy d
        · simp [hdr, isStr]
        · have hisd : isStr d = true := by
            rw [hdr] at hd'
            simpa using hd'
          simp [hdr, hisd]
    · have hist : isStr t = true := by
        rw [htr] at ht'
        simpa using ht'
      simp [htr, hist]

theorem legacyItemEntry_ok_of_WF (x : Json) (h : itemWF x = true) :
    ∃ rn it, legacyItemEntry x = .ok (rn, it) ∧ validItem it = true := by
  cases x with
  | obj ikv =>
    refine ⟨_, _, rfl, ?_⟩
    have hval : validItem (Json.obj
        [("text", textOf ikv),
         ("prs", Json.arr (if 0 < (extractFromItem ikv).2
            then [Json.num (extractFromItem ikv).2] else []))]) =
        (isStr (textOf ikv)
          && isIntArr (Json.arr (if 0 < (extractFromItem ikv).2
              then [Json.num (extractFromItem ikv).2] else []))) := rfl
    rw [hval]
    have h' : (strOkB (jGet ikv "title") && strOkB (jGet ikv "description")) = true := h
    rw [Bool.and_eq_true] at h'
    rw [textOf_isStr ikv h'.1 h'.2, Bool.true_and]
    split <;> rfl
  | null => exact absurd h (by simp [itemWF])
  | bool b => exact absurd h (by simp [itemWF])
  | num n => exact absurd h (by simp [itemWF])
  | str s => exact absurd h (by simp [itemWF])
  | arr xs => exact absurd h (by simp [itemWF])

theorem mapM_itemEntry_ok (xs : List Json) (h : ∀ x ∈ xs, itemWF x = true) :
    ∃ ps, xs.mapM legacyItemEntry = Except.ok ps
      ∧ ∀ p ∈ ps, validItem p.2 = true := by
  induction xs with
  | nil => exact ⟨[], rfl, by simp⟩
  | cons x t ih =>
    obtain ⟨rn, it, hok, hvi⟩ := legacyItemEntry_ok_of_WF x (h x (List.mem_cons_self x t))
    obtain ⟨ps, hps, hpv⟩ := ih (fun y hy => h y (List.mem_cons_of_mem x hy))
    refine ⟨(rn, it) :: ps, ?_, ?_⟩
    · rw [List.mapM_cons, hok, hps]
      rfl
    · intro p hp
      rcases List.mem_cons.mp hp with rfl | hp
      · exact hvi
      · exact hpv p hp

theorem catItems_ok_of_WF (kvs : List (String × Json)) (cat : String)
    (h : catWF kvs cat = true) :
    catItems kvs cat = .ok (catItemsD kvs cat)
    ∧ ∀ p ∈ catItemsD kvs cat, validItem p.2 = true := by
  have hex : ∃ ps, catItems kvs cat = .ok ps ∧ ∀ p ∈ ps, validItem p.2 = true := by
    unfold catWF at h
    unfold catItems
    cases hjv : jGet kvs cat with
    | none => exact ⟨[], rfl, by simp⟩
    | some v =>
      rw [hjv] at h
      have h' : (!jsonTruthy v || itemsArrWF v) = true := h
      show ∃ ps, (if jsonTruthy v = true then mapItemsOrRaise v else Except.ok [])
          = Except.ok ps
        ∧ ∀ p ∈ ps, validItem p.2 = true
      cases htr : jsonTruthy v
      · rw [if_neg (by simp)]
        exact ⟨[], rfl, by simp⟩
      · rw [if_pos rfl]
        rw [htr] at h'
        simp only [Bool.not_true, Bool.false_or] at h'
        cases v with
        | arr xs => exact mapM_itemEntry_ok xs (fun x hx => List.all_eq_true.mp h' x hx)
        | null => simp [itemsArrWF] at h'
        | bool b => simp [itemsArrWF] at h'
        | num n => simp [itemsArrWF] at h'
        | str s2 => simp [itemsArrWF] at h'
        | obj o => simp [itemsArrWF] at h'
  obtain ⟨ps, hok, hval⟩ := hex
  have hD : catItemsD kvs cat = ps := by
    unfold catItemsD
    rw [hok]
  rw [hD]
  exact ⟨hok, hval⟩

theorem mapM_sections_ok (kvs : List (String × Json)) (cats : List String)
    (h : ∀ cat ∈ cats, catItems kvs cat = .ok (catItemsD kvs cat)) :
    cats.mapM (fun cat =>
      (catItems kvs cat).map (fun ps =>
        (groupFS ps).map (fun g =>
          (g.1, Json.obj [("title", Json.str cat), ("items", Json.arr g.2)]))))
    = .ok (cats.map (fun cat =>
        (groupFS (catItemsD kvs cat)).map (fun g =>
          (g.1, Json.obj [("title", Json.str cat), ("items", Json.arr g.2)])))) := by
  induction cats with
  | nil => rfl
  | cons c t ih =>
    rw [List.mapM_cons, h c (List.mem_cons_self c t), ih (fun c' hc' => h c' (List.mem_cons_of_mem c hc'))]
    rfl

theorem itemsFor_isEmpty_iff (kvs : List (String × Json)) (cat rn : String) :
    (itemsFor kvs cat rn).isEmpty = true
      ↔ rn ∉ (catItemsD kvs cat).map Prod.fst := by
  unfold itemsFor
  constructor
  · intro h hm
    rcases (mem_map_fst_iff _ _).mp hm with hne
    cases hf : (catItemsD kvs cat).filter (fun p => p.1 == rn) with
    | nil => exact hne hf
    | cons a t =>
      rw [hf] at h
      simp at h
  · intro hm
    rw [filter_fst_eq_nil hm]
    rfl

theorem evCat_filter (kvs : List (String × Json)) (cat rn : String) :
    (((groupFS (catItemsD kvs cat)).map (fun g =>
        (g.1, sectionJson cat g.2))).filter (fun p => p.1 == rn)).map Prod.snd
    = if (itemsFor kvs cat rn).isEmpty then []
      else [sectionJson cat (itemsFor kvs cat rn)] := by
  rw [groupFS_eq, List.map_map]
  have hcomp : ((fun g => ((g : String × List Json).1, sectionJson cat g.2)) ∘
      (fun k => (k, ((catItemsD kvs cat).filter (fun p => p.1 == k)).map Prod.snd)))
      = fun k => (k, sectionJson cat (itemsFor kvs cat k)) := by
    funext k
    rfl
  rw [hcomp, filter_map_keyed _ _ _ nodup_dedupFS]
  by_cases hin : rn ∈ dedupFS ((catItemsD kvs cat).map Prod.fst)
  · rw [if_pos hin]
    have hne : (itemsFor kvs cat rn).isEmpty = false := by
      cases hie : (itemsFor kvs cat rn).isEmpty
      · rfl
      · exact absurd (mem_dedupFS.mp hin) ((itemsFor_isEmpty_iff kvs cat rn).mp hie)
    rw [hne]
    rfl
  · rw [if_neg hin]
    have hie : (itemsFor kvs cat rn).isEmpty = true :=
      (itemsFor_isEmpty_iff kvs cat rn).mpr (fun hm => hin (mem_dedupFS.mpr hm))
    rw [hie]
    rfl

theorem coerce_legacy_ok_char (kvs : List (String × Json))
    (hkey : hasLegacyKeyB kvs = true) (hwf : legacyWF kvs = true) :
    coerce_legacy (.obj kvs) = .ok (coercedDoc kvs) := by
  have hok : ∀ cat ∈ CATEGORY_TITLES, catItems kvs cat = .ok (catItemsD kvs cat) :=
    fun cat hc => (catItems_ok_of_WF kvs cat (List.all_eq_true.mp hwf cat hc)).1
  show (if hasLegacyKeyB kvs = true then
      (match CATEGORY_TITLES.mapM (fun cat =>
          (catItems kvs cat).map (fun ps =>
            (groupFS ps).map (fun g =>
              (g.1, Json.obj [("title", Json.str cat), ("items", Json.arr g.2)])))) with
       | Except.ok sectionLists =>
         Except.ok (Json.obj
           [("tldr", Json.arr []),
            ("repos", Json.arr ((groupFS sectionLists.flatten).map (fun r =>
              Json.obj [("name", Json.str r.1), ("sections", Json.arr r.2)]))),
            ("upgrade_notes", Json.arr []),
            ("contributors", Json.arr [])])
       | Except.error e => Except.error e)
    else Except.error ()) = Except.ok (coercedDoc kvs)
  rw [hkey, if_pos rfl, mapM_sections_ok kvs CATEGORY_TITLES hok]
  show Except.ok (Json.obj
      [("tldr", Json.arr []),
       ("repos", Json.arr ((groupFS ((CATEGORY_TITLES.map (fun cat =>
          (groupFS (catItemsD kvs cat)).map (fun g =>
            (g.1, Json.obj [("title", Json.str cat),
                            ("items", Json.arr g.2)])))).flatten)).map (fun r =>
          Json.obj [("name", Json.str r.1), ("sections", Json.arr r.2)]))),
       ("upgrade_notes", Json.arr []),
       ("contributors", Json.arr [])])
    = Except.ok (coercedDoc kvs)
  unfold coercedDoc
  have hrepos : (groupFS ((CATEGORY_TITLES.map (fun cat =>
          (groupFS (catItemsD kvs cat)).map (fun g =>
            (g.1, Json.obj [("title", Json.str cat),
                            ("items", Json.arr g.2)])))).flatten)).map (fun r =>
          Json.obj [("name", Json.str r.1), ("sections", Json.arr r.2)])
      = (legacyRepoNames kvs).map (fun rn =>
          Json.obj [("name", Json.str rn), ("sections", Json.arr (sectionsFor kvs rn))]) := by
    rw [groupFS_eq, List.map_map]
    have hkeys : ((CATEGORY_TITLES.map (fun cat =>
        (groupFS (catItemsD kvs cat)).map (fun g =>
          (g.1, Json.obj [("title", Json.str cat),
                          ("items", Json.arr g.2)])))).flatten).map Prod.fst
        = CATEGORY_TITLES.flatMap (fun cat =>
            dedupFS ((catItemsD kvs cat).map Prod.fst)) := by
      rw [List.map_flatten, List.map_map]
      have hfun : ∀ cat ∈ CATEGORY_TITLES,
          ((fun l => List.map Prod.fst l) ∘ (fun cat =>
            List.map (fun g => ((g : String × List Json).1,
              Json.obj [("title", Json.str cat), ("items", Json.arr g.2)]))
              (groupFS (catItemsD kvs cat)))) cat
          = dedupFS ((catItemsD kvs cat).map Prod.fst) := by
        intro cat _
        show ((groupFS (catItemsD kvs cat)).map (fun g =>
          (g.1, Json.obj [("title", Json.str cat),
                          ("items", Json.arr g.2)]))).map Prod.fst = _
        rw [List.map_map]
        have hc2 : (Prod.fst ∘ (fun g => ((g : String × List Json).1,
            Json.obj [("title", Json.str cat), ("items", Json.arr g.2)])))
            = (Prod.fst : String × List Json → String) := by
          funext g
          rfl
        rw [hc2, groupFS_keys]
      rw [List.map_congr_left hfun]
      rfl
    have hnames : dedupFS (((CATEGORY_TITLES.map (fun cat =>
        (groupFS (catItemsD kvs cat)).map (fun g =>
          (g.1, Json.obj [("title", Json.str cat),
                          ("items", Json.arr g.2)])))).flatten).map Prod.fst)
        = legacyRepoNames kvs := by
      rw [hkeys, dedupFS_flatMap_dedupFS]
      unfold legacyRepoNames
      rw [List.map_flatMap]
    rw [hnames]
    apply List.map_congr_left
    intro rn _
    show Json.obj [("name", Json.str rn),
        ("sections", Json.arr ((((CATEGORY_TITLES.map (fun cat =>
          (groupFS (catItemsD kvs cat)).map (fun g =>
            (g.1, Json.obj [("title", Json.str cat),
                            ("items", Json.arr g.2)])))).flatten).filter
              (fun p => p.1 == rn)).map Prod.snd))]
      = Json.obj [("name", Json.str rn), ("sections", Json.arr (sectionsFor kvs rn))]
    have hvals : ((((CATEGORY_TITLES.map (fun cat =>
        (groupFS (catItemsD kvs cat)).map (fun g =>
          (g.1, Json.obj [("title", Json.str cat),
                          ("items", Json.arr g.2)])))).flatten).filter
            (fun p => p.1 == rn)).map Prod.snd)
        = sectionsFor kvs rn := by
      rw [flatten_filter_map, List.map_map]
      unfold sectionsFor
      have hfun2 : ∀ cat ∈ CATEGORY_TITLES,
          (((fun l => (l.filter (fun p => p.1 == rn)).map Prod.snd) ∘ (fun cat =>
            List.map (fun g => ((g : String × List Json).1,
              Json.obj [("title", Json.str cat), ("items", Json.arr g.2)]))
              (groupFS (catItemsD kvs cat)))) cat)
          = (if (itemsFor kvs cat rn).isEmpty then []
             else [sectionJson cat (itemsFor kvs cat rn)]) := by
        intro cat _
        exact evCat_filter kvs cat rn
      rw [List.map_congr_left hfun2]
    rw [hvals]
  rw [hrepos]

theorem coercedDoc_valid (kvs : List (String × Json)) (hwf : legacyWF kvs = true) :
    is_valid_release (coercedDoc kvs) = true := by
  have hval : ∀ cat ∈ CATEGORY_TITLES, ∀ p ∈ catItemsD kvs cat, validItem p.2 = true :=
    fun cat hc => (catItems_ok_of_WF kvs cat (List.all_eq_true.mp hwf cat hc)).2
  have hR : ((legacyRepoNames kvs).map (fun rn =>
      Json.obj [("name", Json.str rn),
                ("sections", Json.arr (sectionsFor kvs rn))])).all validRepo = true := by
    rw [List.all_eq_true]
    intro x hx
    obtain ⟨rn, _, rfl⟩ := List.mem_map.mp hx
    show (sectionsFor kvs rn).all validSection = true
    rw [List.all_eq_true]
    intro sec hs
    unfold sectionsFor at hs
    rw [List.mem_flatten] at hs
    obtain ⟨l, hl, hsl⟩ := hs
    obtain ⟨cat, hcat, rfl⟩ := List.mem_map.mp hl
    by_cases hie : (itemsFor kvs cat rn).isEmpty = true
    · rw [if_pos hie] at hsl
      cases hsl
    · rw [if_neg hie] at hsl
      rcases List.mem_singleton.mp hsl with rfl
      show (itemsFor kvs cat rn).all validItem = true
      rw [List.all_eq_true]
      intro it hit
      unfold itemsFor at hit
      obtain ⟨p, hp, rfl⟩ := List.mem_map.mp hit
      exact hval cat hcat p (List.mem_filter.mp hp).1
  show (((((legacyRepoNames kvs).map (fun rn =>
      Json.obj [("name", Json.str rn),
                ("sections", Json.arr (sectionsFor kvs rn))])).all validRepo) && true) && true)
    = true
  rw [hR]
  rfl

/-! ## Characterizing the consolidation protocol -/

theorem filterMap_flatten {α β : Type} (ls : List (List α)) (f : α → Option β) :
    ls.flatten.filterMap f = (ls.map (fun l => l.filterMap f)).flatten := by
  induction ls with
  | nil => rfl
  | cons l t ih =>
    rw [List.flatten_cons, List.filterMap_append, ih, List.map_cons, List.flatten_cons]

theorem flatten_map_singleton {α β : Type} (l : List α) (f : α → β) :
    (l.map (fun x => [f x])).flatten = l.map f := by
  induction l with
  | nil => rfl
  | cons a t ih =>
    rw [List.map_cons, List.flatten_cons, ih, List.map_cons]
    rfl

theorem sleepsOf_append (l1 l2 : List Ev) :
    sleepsOf (l1 ++ l2) = sleepsOf l1 ++ sleepsOf l2 :=
  List.filterMap_append l1 l2 _

theorem invokesOf_append (l1 l2 : List Ev) :
    invokesOf (l1 ++ l2) = invokesOf l1 ++ invokesOf l2 :=
  List.filterMap_append l1 l2 _

theorem attemptEvs_sleeps (u : String) (t : ℚ) (i : Nat) (d? : Option Json) :
    sleepsOf (attemptEvs u t i d?)
      = (if (attemptResult d?).isSome then [] else [sleepDur i]) := by
  cases d? with
  | none => rfl
  | some d =>
    by_cases hv : validMin (ensure_required_defaults d) = true
    · simp [attemptEvs, attemptResult, sleepsOf, hv]
    · cases hcc : coerce_legacy (ensure_required_defaults d) with
      | ok c =>
        by_cases hvc : validMin (ensure_required_defaults c) = true
        · simp [attemptEvs, attemptResult, sleepsOf, hv, hcc, hvc]
        · simp [attemptEvs, attemptResult, sleepsOf, hv, hcc, hvc]
      | error e =>
        simp [attemptEvs, attemptResult, sleepsOf, hv, hcc]

theorem attemptEvs_invokes (u : String) (t : ℚ) (i : Nat) (d? : Option Json) :
    invokesOf (attemptEvs u t i d?) = [(attemptMsgs u, t)] := by
  cases d? with
  | none => rfl
  | some d =>
    by_cases hv : validMin (ensure_required_defaults d) = true
    · simp [attemptEvs, invokesOf, hv]
    · cases hcc : coerce_legacy (ensure_required_defaults d) with
      | ok c =>
        by_cases hvc : validMin (ensure_required_defaults c) = true
        · simp [attemptEvs, invokesOf, hv, hcc, hvc]
        · simp [attemptEvs, invokesOf, hv, hcc, hvc]
      | error e =>
        simp [attemptEvs, invokesOf, hv, hcc]

theorem attemptEvs_tier (u : String) (t : ℚ) (i : Nat) (d? : Option Json) :
    tierDiscipline (attemptEvs u t i d?) = true := by
  cases d? with
  | none => rfl
  | some d =>
    by_cases hv : validMin (ensure_required_defaults d) = true
    · simp [attemptEvs, tierDiscipline, hv]
    · cases hcc : coerce_legacy (ensure_required_defaults d) with
      | ok c =>
        by_cases hvc : validMin (ensure_required_defaults c) = true
        · simp [attemptEvs, tierDiscipline, hv, hcc, hvc]
        · simp [attemptEvs, tierDiscipline, hv, hcc, hvc]
      | error e =>
        simp [attemptEvs, tierDiscipline, hv, hcc]

theorem repairEvs_sleeps (u : String) (d? : Option Json) :
    sleepsOf (repairEvs u d?) = [] := by
  cases d? with
  | none => rfl
  | some d =>
    by_cases hv : validMin (ensure_required_defaults d) = true
    · simp [repairEvs, sleepsOf, hv]
    · simp [repairEvs, sleepsOf, hv]

theorem repairEvs_invokes (u : String) (d? : Option Json) :
    invokesOf (repairEvs u d?) = [(repairMsgs u, 0)] := by
  cases d? with
  | none => rfl
  | some d =>
    by_cases hv : validMin (ensure_required_defaults d) = true
    · simp [repairEvs, invokesOf, hv]
    · simp [repairEvs, invokesOf, hv]

theorem repairEvs_tier (u : String) (d? : Option Json) :
    tierDiscipline (repairEvs u d?) = true := by
  cases d? with
  | none => rfl
  | some d =>
    by_cases hv : validMin (ensure_required_defaults d) = true
    · simp [repairEvs, tierDiscipline, hv]
    · simp [repairEvs, tierDiscipline, hv]

theorem attemptsLoop_char (resp : Nat → Option Json) (u : String) (t : ℚ) :
    ∀ n i, ∃ m, m ≤ n
      ∧ (attemptsLoop resp u t i n).1
          = (List.range m).map (fun j => attemptEvs u t (i + j) (resp (i + j)))
      ∧ ((attemptsLoop resp u t i n).2 = none
            ∧ m = n ∧ (∀ j, j < m → attemptResult (resp (i + j)) = none)
         ∨ ∃ d, (attemptsLoop resp u t i n).2 = some d
            ∧ 0 < m
            ∧ attemptResult (resp (i + (m - 1))) = some d
            ∧ (∀ j, j < m - 1 → attemptResult (resp (i + j)) = none)) := by
  intro n
  induction n with
  | zero =>
    intro i
    exact ⟨0, Nat.le_refl 0, rfl, Or.inl ⟨rfl, rfl, by omega⟩⟩
  | succ n ih =>
    intro i
    cases hr : attemptResult (resp i) with
    | some d =>
      have hloop : attemptsLoop resp u t i (n + 1)
          = ([attemptEvs u t i (resp i)], some d) := by
        simp only [attemptsLoop]
        rw [hr]
      refine ⟨1, by omega, ?_, Or.inr ⟨d, ?_, by omega, ?_, by omega⟩⟩
      · rw [hloop]
        have hr1 : List.range 1 = [0] := rfl
        rw [hr1, List.map_cons, List.map_nil, Nat.add_zero]
      · rw [hloop]
      · simpa using hr
    | none =>
      obtain ⟨m, hm, hphs, hres⟩ := ih (i + 1)
      have hloop : attemptsLoop resp u t i (n + 1)
          = (attemptEvs u t i (resp i) :: (attemptsLoop resp u t (i + 1) n).1,
             (attemptsLoop resp u t (i + 1) n).2) := by
        simp only [attemptsLoop]
        rw [hr]
      refine ⟨m + 1, by omega, ?_, ?_⟩
      · rw [hloop]
        show attemptEvs u t i (resp i) :: (attemptsLoop resp u t (i + 1) n).1 = _
        rw [hphs, List.range_succ_eq_map, List.map_cons, List.map_map, Nat.add_zero]
        congr 1
        apply List.map_congr_left
        intro j _
        show attemptEvs u t (i + 1 + j) (resp (i + 1 + j))
          = attemptEvs u t (i + (j + 1)) (resp (i + (j + 1)))
        have heq : i + 1 + j = i + (j + 1) := by omega
        rw [heq]
      · rcases hres with ⟨hn, hm', hfailr⟩ | ⟨d, hsome, hpos, hlast, hfailr⟩
        · left
          refine ⟨by rw [hloop]; exact hn, by omega, ?_⟩
          intro j hj
          cases j with
          | zero => simpa using hr
          | succ j' =>
            have hf := hfailr j' (by omega)
            have heq : i + (j' + 1) = i + 1 + j' := by omega
            rw [heq]
            exact hf
        · right
          refine ⟨d, by rw [hloop]; exact hsome, by omega, ?_, ?_⟩
          · have heq : i + (m + 1 - 1) = i + 1 + (m - 1) := by omega
            rw [heq]
            exact hlast
          · intro j hj
            cases j with
            | zero => simpa using hr
            | succ j' =>
              have hf := hfailr j' (by omega)
              have heq : i + (j' + 1) = i + 1 + j' := by omega
              rw [heq]
              exact hf

theorem consolidate_fst (resp : Nat → Option Json) (u : String) (t : ℚ) :
    (consolidate resp u t).1
      = (attemptsLoop resp u t 0 3).1
        ++ (if (attemptsLoop resp u t 0 3).2.isSome then []
            else [repairEvs u (resp 3)]) := by
  unfold consolidate
  cases hal : attemptsLoop resp u t 0 3 with
  | mk phs r =>
    cases r with
    | some d => simp
    | none => simp [repairPhase]

theorem consolidate_snd (resp : Nat → Option Json) (u : String) (t : ℚ) :
    (consolidate resp u t).2
      = (match (attemptsLoop resp u t 0 3).2 with
         | some d => Except.ok d
         | none => repairResult (resp 3)) := by
  unfold consolidate
  cases hal : attemptsLoop resp u t 0 3 with
  | mk phs r =>
    cases r with
    | some d => simp [repairPhase]
    | none => simp [repairPhase]

theorem repairResult_fatal (d : Json)
    (hv : validMin (ensure_required_defaults d) = false)
    (hc : coerceFails (ensure_required_defaults d) = true) :
    repairResult (some d)
      = (if is_valid_release (ensure_required_defaults d)
         then Except.error ConsErr.emptyDoc
         else Except.error (ConsErr.schemaError (ensure_required_defaults d))) := by
  unfold coerceFails at hc
  cases hcc : coerce_legacy (ensure_required_defaults d) with
  | ok c =>
    rw [hcc] at hc
    have hvc : validMin (ensure_required_defaults c) = false := by simpa using hc
    simp [repairResult, hv, hcc, hvc]
  | error e =>
    simp [repairResult, hv, hcc]

theorem invokes_attempt_phases (resp : Nat → Option Json) (u : String) (t : ℚ) (m : Nat) :
    invokesOf (((List.range m).map (fun j => attemptEvs u t j (resp j))).flatten)
      = (List.range m).map (fun _ => (attemptMsgs u, t)) := by
  have h1 : invokesOf (((List.range m).map (fun j => attemptEvs u t j (resp j))).flatten)
      = (((List.range m).map (fun j => attemptEvs u t j (resp j))).map invokesOf).flatten :=
    filterMap_flatten _ _
  rw [h1, List.map_map]
  have hfun : ∀ j ∈ List.range m,
      (invokesOf ∘ (fun j => attemptEvs u t j (resp j))) j
      = (fun j => [(fun _ => ((attemptMsgs u, t) : List Msg × ℚ)) j]) j :=
    fun j _ => attemptEvs_invokes u t j (resp j)
  rw [List.map_congr_left hfun, flatten_map_singleton]

theorem sleeps_attempt_fail (resp : Nat → Option Json) (u : String) (t : ℚ) (m : Nat)
    (hfail : ∀ j, j < m → attemptResult (resp j) = none) :
    sleepsOf (((List.range m).map (fun j => attemptEvs u t j (resp j))).flatten)
      = (List.range m).map sleepDur := by
  have h1 : sleepsOf (((List.range m).map (fun j => attemptEvs u t j (resp j))).flatten)
      = (((List.range m).map (fun j => attemptEvs u t j (resp j))).map sleepsOf).flatten :=
    filterMap_flatten _ _
  rw [h1, List.map_map]
  have hfun : ∀ j ∈ List.range m,
      (sleepsOf ∘ (fun j => attemptEvs u t j (resp j))) j
      = (fun j => [sleepDur j]) j := by
    intro j hj
    have h2 := attemptEvs_sleeps u t j (resp j)
    rw [hfail j (List.mem_range.mp hj)] at h2
    simpa using h2
  rw [List.map_congr_left hfun, flatten_map_singleton]

/-! ## Lookup and `setdefault` lemmas -/

theorem jGet_none_of_hasKeyB_false {kvs : List (String × Json)} {k : String}
    (h : hasKeyB kvs k = false) : jGet kvs k = none := by
  unfold hasKeyB at h
  unfold jGet
  cases hf : kvs.find? (fun p => p.1 == k)
  · rfl
  · rw [hf] at h
    simp at h

theorem jGet_append (l1 l2 : List (String × Json)) (k : String) :
    jGet (l1 ++ l2) k = (jGet l1 k).or (jGet l2 k) := by
  unfold jGet
  rw [List.find?_append]
  cases l1.find? (fun p => p.1 == k) <;> rfl

theorem jGet_setdefault_same (kvs : List (String × Json)) (k : String) (v : Json) :
    jGet (setdefault kvs k v) k = some ((jGet kvs k).getD v) := by
  unfold setdefault
  by_cases h : hasKeyB kvs k = true
  · rw [if_pos h]
    unfold hasKeyB at h
    unfold jGet
    cases hf : kvs.find? (fun p => p.1 == k)
    · rw [hf] at h
      simp at h
    · rfl
  · have hfalse : hasKeyB kvs k = false := by
      cases hb : hasKeyB kvs k
      · rfl
      · exact absurd hb h
    rw [if_neg h, jGet_append, jGet_none_of_hasKeyB_false hfalse]
    unfold jGet
    rw [List.find?_cons_of_pos _ (by simp)]
    rfl

theorem jGet_setdefault_other (kvs : List (String × Json)) {k k' : String}
    (v : Json) (h : k' ≠ k) :
    jGet (setdefault kvs k v) k' = jGet kvs k' := by
  unfold setdefault
  split
  · rfl
  · rw [jGet_append]
    have : jGet [(k, v)] k' = none := by
      unfold jGet
      rw [List.find?_cons_of_neg _ (by simpa using fun he => h he.symm)]
      rfl
    rw [this]
    cases jGet kvs k' <;> rfl

/-! ## Claim C6 -/

/-- Counterexample to C6: the document `{"tldr": "x"}` misses the required
field `repos` and is invalid (as the claim says), but it remains invalid after
default-filling, because the present `tldr` field has the wrong type and
`setdefault` does not repair present fields. -/
theorem schema_defaults_counterexample :
    jGet [("tldr", Json.str "x")] "repos" = none
    ∧ is_valid_release (.obj [("tldr", Json.str "x")]) = false
    ∧ is_valid_release (ensure_required_defaults (.obj [("tldr", Json.str "x")])) = false :=
  ⟨rfl, rfl, rfl⟩

/-- C6 (amended): a document missing any of the four required top-level
fields is invalid, and — provided its present top-level fields conform to
their subschemas — becomes valid after `_ensure_required_defaults`. -/
theorem schema_missing_fields_defaults (kvs : List (String × Json))
    (hmiss : missingRequired kvs = true)
    (hconf : presentConform kvs = true) :
    is_valid_release (.obj kvs) = false
    ∧ is_valid_release (ensure_required_defaults (.obj kvs)) = true := by
  obtain ⟨hc1, hc2, hc3, hc4⟩ :
      conformsAt kvs "tldr" isStrArr = true
      ∧ conformsAt kvs "repos" reposConform = true
      ∧ conformsAt kvs "upgrade_notes" isStrArr = true
      ∧ conformsAt kvs "contributors" isStrArr = true := by
    unfold presentConform at hconf
    simp only [Bool.and_eq_true] at hconf
    tauto
  constructor
  · have hex : ∃ k ∈ REQUIRED_KEYS, hasKeyB kvs k = false := by
      by_contra hco
      push_neg at hco
      have hall : REQUIRED_KEYS.all (fun k => hasKeyB kvs k) = true := by
        rw [List.all_eq_true]
        intro k hk
        cases hb : hasKeyB kvs k
        · exact absurd hb (hco k hk)
        · rfl
      rw [missingRequired, hall] at hmiss
      simp at hmiss
    obtain ⟨k, hk, hfalse⟩ := hex
    have hnone := jGet_none_of_hasKeyB_false hfalse
    show ((match jGet kvs "tldr" with | some v => isStrArr v | none => false)
      && (match jGet kvs "repos" with
          | some (.arr xs) => xs.all validRepo
          | _ => false)
      && (match jGet kvs "upgrade_notes" with | some v => isStrArr v | none => false)
      && (match jGet kvs "contributors" with | some v => isStrArr v | none => false)) = false
    simp only [REQUIRED_KEYS, List.mem_cons, List.not_mem_nil, or_false] at hk
    rcases hk with rfl | rfl | rfl | rfl <;> rw [hnone] <;> simp
  · set s1 := setdefault kvs "tldr" (.arr []) with hs1
    set s2 := setdefault s1 "repos" (.arr []) with hs2
    set s3 := setdefault s2 "upgrade_notes" (.arr []) with hs3
    set s4 := setdefault s3 "contributors" (.arr []) with hs4
    have g1 : jGet s4 "tldr" = some ((jGet kvs "tldr").getD (.arr [])) := by
      rw [hs4, jGet_setdefault_other _ _ (by decide), hs3,
        jGet_setdefault_other _ _ (by decide), hs2,
        jGet_setdefault_other _ _ (by decide), hs1, jGet_setdefault_same]
    have g2 : jGet s4 "repos" = some ((jGet s1 "repos").getD (.arr [])) := by
      rw [hs4, jGet_setdefault_other _ _ (by decide), hs3,
        jGet_setdefault_other _ _ (by decide), hs2, jGet_setdefault_same]
    have g3 : jGet s4 "upgrade_notes" = some ((jGet s2 "upgrade_notes").getD (.arr [])) := by
      rw [hs4, jGet_setdefault_other _ _ (by decide), hs3, jGet_setdefault_same]
    have g4 : jGet s4 "contributors" = some ((jGet s3 "contributors").getD (.arr [])) := by
      rw [hs4, jGet_setdefault_same]
    have e2 : jGet s1 "repos" = jGet kvs "repos" := by
      rw [hs1, jGet_setdefault_other _ _ (by decide)]
    have e3 : jGet s2 "upgrade_notes" = jGet kvs "upgrade_notes" := by
      rw [hs2, jGet_setdefault_other _ _ (by decide), hs1,
        jGet_setdefault_other _ _ (by decide)]
    have e4 : jGet s3 "contributors" = jGet kvs "contributors" := by
      rw [hs3, jGet_setdefault_other _ _ (by decide), hs2,
        jGet_setdefault_other _ _ (by decide), hs1,
        jGet_setdefault_other _ _ (by decide)]
    show ((match jGet s4 "tldr" with | some v => isStrArr v | none => false)
      && (match jGet s4 "repos" with
          | some (.arr xs) => xs.all validRepo
          | _ => false)
      && (match jGet s4 "upgrade_notes" with | some v => isStrArr v | none => false)
      && (match jGet s4 "contributors" with | some v => isStrArr v | none => false)) = true
    rw [g1, g2, e2, g3, e3, g4, e4]
    have p1 : isStrArr ((jGet kvs "tldr").getD (.arr [])) = true := by
      unfold conformsAt at hc1
      cases ho : jGet kvs "tldr"
      · rfl
      · rw [ho] at hc1
        simpa using hc1
    have p2 : (match (jGet kvs "repos").getD (.arr []) with
        | Json.arr xs => xs.all validRepo
        | _ => false) = true := by
      unfold conformsAt at hc2
      cases ho : jGet kvs "repos"
      · rfl
      · rw [ho] at hc2
        simpa [reposConform] using hc2
    have p3 : isStrArr ((jGet kvs "upgrade_notes").getD (.arr [])) = true := by
      unfold conformsAt at hc3
      cases ho : jGet kvs "upgrade_notes"
      · rfl
      · rw [ho] at hc3
        simpa using hc3
    have p4 : isStrArr ((jGet kvs "contributors").getD (.arr [])) = true := by
      unfold conformsAt at hc4
      cases ho : jGet kvs "contributors"
      · rfl
      · rw [ho] at hc4
        simpa using hc4
    simp only [p1, p3, p4, Bool.true_and, Bool.and_true]
    cases hv : (jGet kvs "repos").getD (.arr []) <;> rw [hv] at p2 <;> simpa using p2

/-- Witness for C6 at a document carrying only a conformant `contributors`
field. -/
theorem schema_missing_fields_defaults_witness :
    missingRequired [("contributors", Json.arr [Json.str "a"])] = true
    ∧ is_valid_release (.obj [("contributors", Json.arr [Json.str "a"])]) = false
    ∧ is_valid_release (ensure_required_defaults
        (.obj [("contributors", Json.arr [Json.str "a"])])) = true :=
  ⟨rfl,
   (schema_missing_fields_defaults [("contributors", Json.arr [Json.str "a"])] rfl rfl).1,
   (schema_missing_fields_defaults [("contributors", Json.arr [Json.str "a"])] rfl rfl).2⟩

/-! ## Claim C8 -/

/-- C8: the rendered product blocks list products in first-seen traversal
order with input-order bullets (never sorted); in particular repositories
fed in order `[z/hq, x/api-core]` yield product headings `hq` before `API`
even though `"API" < "hq"` alphabetically. -/
theorem render_product_first_seen_order :
    (∀ (doc : ReleaseDocument) (today : String),
      renderLines doc today
        = headerLines doc today
          ++ ((spec_firstSeenProducts doc).map (fun p =>
                ("**" ++ p ++ "**") :: spec_bulletsForProduct doc p ++ [""])).flatten
          ++ upgradeLines doc)
    ∧ spec_firstSeenProducts
        (ReleaseDocument.mk none []
          [RdRepo.mk "z/hq" [RdSection.mk "Features" [RdItem.mk "did x" [3]]],
           RdRepo.mk "x/api-core" [RdSection.mk "Fixes" [RdItem.mk "fixed y" []]]]
          [] []) = ["hq", "API"]
    ∧ "API".data < "hq".data := by
  refine ⟨?_, rfl, by decide⟩
  intro doc today
  unfold renderLines
  congr 1
  congr 1
  unfold productLines collectProducts spec_firstSeenProducts spec_bulletsForProduct
  rw [groupFS_eq, List.map_map]
  congr 1
  apply List.map_congr_left
  intro k hk
  have hkmem : k ∈ (bulletsOf doc).map Prod.fst := mem_dedupFS.mp hk
  obtain ⟨pr, hpr, rfl⟩ := List.mem_map.mp hkmem
  have hmem2 : pr ∈ (bulletsOf doc).filter (fun q => q.1 == pr.1) :=
    List.mem_filter.mpr ⟨hpr, by simp⟩
  have hne : (((bulletsOf doc).filter (fun q => q.1 == pr.1)).map Prod.snd).isEmpty
      = false := by
    cases hfe : (bulletsOf doc).filter (fun q => q.1 == pr.1) with
    | nil => rw [hfe] at hmem2; cases hmem2
    | cons a t => rfl
  simp only [Function.comp_def, hne, Bool.false_eq_true, if_false]

/-! ## Claim C1 -/

/-- C1: for every response sequence, the consolidation makes at most three
numbered invocations (exactly `min 3 (k+1)` where `k` counts the failed
attempts), every invocation's messages begin with the system prompt and the
user message built once from the snapshots, the backoff sleeps are exactly
`1.2 * n` seconds after the `n`-th failed attempt, the single repair
invocation — present exactly when all three attempts failed — runs at
temperature `0` with the original two messages plus the appended corrective
instruction, and every phase obeys the tier discipline (one invocation, then
at most one validation tier and at most one coercion tier, validation always
first, both at most once per attempt). -/
theorem consolidate_protocol (resp : Nat → Option Json)
    (snapshots : List (String × String)) (since_ref until_ref : String) (temp : ℚ) :
    ∃ k, k ≤ 3
      ∧ sleepsOf (consolidate_openai resp snapshots since_ref until_ref temp).1.flatten
          = (List.range k).map sleepDur
      ∧ ((invokesOf (consolidate_openai resp snapshots since_ref until_ref temp).1.flatten).filter
            (fun iv => iv.1.length == 2)).length = min 3 (k + 1)
      ∧ (∀ iv ∈ invokesOf (consolidate_openai resp snapshots since_ref until_ref temp).1.flatten,
          iv.1.take 2 = attemptMsgs (build_user_message snapshots since_ref until_ref))
      ∧ ((invokesOf (consolidate_openai resp snapshots since_ref until_ref temp).1.flatten).filter
            (fun iv => iv.1.length == 3))
          = (if k = 3
             then [(repairMsgs (build_user_message snapshots since_ref until_ref), 0)]
             else [])
      ∧ (∀ ph ∈ (consolidate_openai resp snapshots since_ref until_ref temp).1,
          tierDiscipline ph = true) := by
  obtain ⟨m, hm3, hphs, hres⟩ :=
    attemptsLoop_char resp (build_user_message snapshots since_ref until_ref) temp 3 0
  set u := build_user_message snapshots since_ref until_ref with hu
  have hphs' : (attemptsLoop resp u temp 0 3).1
      = (List.range m).map (fun j => attemptEvs u temp j (resp j)) := by
    rw [hphs]
    apply List.map_congr_left
    intro j _
    rw [Nat.zero_add]
  have hco : (consolidate_openai resp snapshots since_ref until_ref temp).1
      = (consolidate resp u temp).1 := rfl
  rcases hres with ⟨hnone, hmeq, hfail⟩ | ⟨d, hsome, hpos, hlast, hfail⟩
  · -- all three attempts failed: k = 3, repair phase present
    subst hmeq
    have hfail' : ∀ j, j < 3 → attemptResult (resp j) = none := by
      intro j hj
      have := hfail j hj
      rwa [Nat.zero_add] at this
    have hfst : (consolidate resp u temp).1
        = (List.range 3).map (fun j => attemptEvs u temp j (resp j))
          ++ [repairEvs u (resp 3)] := by
      rw [consolidate_fst, hnone, hphs']
      rfl
    refine ⟨3, by omega, ?_, ?_, ?_, ?_, ?_⟩
    · rw [hco, hfst, List.flatten_append, sleepsOf_append,
        sleeps_attempt_fail resp u temp 3 hfail']
      have : ([repairEvs u (resp 3)] : List (List Ev)).flatten = repairEvs u (resp 3) := by
        simp
      rw [this, repairEvs_sleeps, List.append_nil]
    · rw [hco, hfst, List.flatten_append, invokesOf_append, invokes_attempt_phases]
      have hfl : ([repairEvs u (resp 3)] : List (List Ev)).flatten = repairEvs u (resp 3) := by
        simp
      rw [hfl, repairEvs_invokes, List.filter_append]
      have hkeep : ((List.range 3).map (fun _ => ((attemptMsgs u, temp) : List Msg × ℚ))).filter
          (fun iv => iv.1.length == 2)
          = (List.range 3).map (fun _ => ((attemptMsgs u, temp) : List Msg × ℚ)) := by
        rw [List.filter_eq_self]
        intro a ha
        obtain ⟨j, _, rfl⟩ := List.mem_map.mp ha
        rfl
      have hdrop : ([((repairMsgs u, 0) : List Msg × ℚ)]).filter
          (fun iv => iv.1.length == 2) = [] := by rfl
      rw [hkeep, hdrop, List.append_nil, List.length_map, List.length_range]
      decide
    · intro iv hiv
      rw [hco, hfst, List.flatten_append, invokesOf_append, invokes_attempt_phases] at hiv
      have hfl : ([repairEvs u (resp 3)] : List (List Ev)).flatten = repairEvs u (resp 3) := by
        simp
      rw [hfl, repairEvs_invokes] at hiv
      rcases List.mem_append.mp hiv with h | h
      · obtain ⟨j, _, rfl⟩ := List.mem_map.mp h
        rfl
      · rcases List.mem_singleton.mp h with rfl
        rfl
    · rw [hco, hfst, List.flatten_append, invokesOf_append, invokes_attempt_phases]
      have hfl : ([repairEvs u (resp 3)] : List (List Ev)).flatten = repairEvs u (resp 3) := by
        simp
      rw [hfl, repairEvs_invokes, List.filter_append]
      have hdrop : ((List.range 3).map (fun _ => ((attemptMsgs u, temp) : List Msg × ℚ))).filter
          (fun iv => iv.1.length == 3) = [] := by
        rw [List.filter_eq_nil_iff]
        intro a ha
        obtain ⟨j, _, rfl⟩ := List.mem_map.mp ha
        have hlen : (attemptMsgs u).length = 2 := rfl
        simp [hlen]
      rw [hdrop, List.nil_append]
      rfl
    · intro ph hph
      rw [hco, hfst] at hph
      rcases List.mem_append.mp hph with h | h
      · obtain ⟨j, _, rfl⟩ := List.mem_map.mp h
        exact attemptEvs_tier u temp j (resp j)
      · rcases List.mem_singleton.mp h with rfl
        exact repairEvs_tier u (resp 3)
  · -- success at attempt index m - 1: k = m - 1 failed attempts, no repair
    cases m with
    | zero => omega
    | succ k =>
      have hlast' : attemptResult (resp k) = some d := by
        have := hlast
        rwa [Nat.zero_add, Nat.add_sub_cancel] at this
      have hfail' : ∀ j, j < k → attemptResult (resp j) = none := by
        intro j hj
        have := hfail j (by omega)
        rwa [Nat.zero_add] at this
      have hfst : (consolidate resp u temp).1
          = (List.range (k + 1)).map (fun j => attemptEvs u temp j (resp j)) := by
        rw [consolidate_fst, hsome, hphs']
        simp
      refine ⟨k, by omega, ?_, ?_, ?_, ?_, ?_⟩
      · rw [hco, hfst, List.range_succ, List.map_append, List.flatten_append,
          sleepsOf_append, sleeps_attempt_fail resp u temp k hfail']
        have hfl : ([attemptEvs u temp k (resp k)] : List (List Ev)).flatten
            = attemptEvs u temp k (resp k) := by simp
        rw [List.map_cons, List.map_nil, hfl]
        have hs := attemptEvs_sleeps u temp k (resp k)
        rw [hlast'] at hs
        simp only [Option.isSome_some, if_true] at hs
        rw [hs, List.append_nil]
      · rw [hco, hfst, invokes_attempt_phases]
        have hkeep : ((List.range (k + 1)).map
            (fun _ => ((attemptMsgs u, temp) : List Msg × ℚ))).filter
            (fun iv => iv.1.length == 2)
            = (List.range (k + 1)).map (fun _ => ((attemptMsgs u, temp) : List Msg × ℚ)) := by
          rw [List.filter_eq_self]
          intro a ha
          obtain ⟨j, _, rfl⟩ := List.mem_map.mp ha
          rfl
        rw [hkeep, List.length_map, List.length_range, Nat.min_eq_right (by omega)]
      · intro iv hiv
        rw [hco, hfst, invokes_attempt_phases] at hiv
        obtain ⟨j, _, rfl⟩ := List.mem_map.mp hiv
        rfl
      · rw [hco, hfst, invokes_attempt_phases]
        have hdrop : ((List.range (k + 1)).map
            (fun _ => ((attemptMsgs u, temp) : List Msg × ℚ))).filter
            (fun iv => iv.1.length == 3) = [] := by
          rw [List.filter_eq_nil_iff]
          intro a ha
          obtain ⟨j, _, rfl⟩ := List.mem_map.mp ha
          have hlen : (attemptMsgs u).length = 2 := rfl
          simp [hlen]
        rw [hdrop, if_neg (by omega)]
      · intro ph hph
        rw [hco, hfst] at hph
        obtain ⟨j, _, rfl⟩ := List.mem_map.mp hph
        exact attemptEvs_tier u temp j (resp j)

/-! ## Claim C2 -/

/-- Counterexample to C2: when every response is the schema-valid but
empty document, all tiers fail, yet the repair tier raises the plain
empty-document `ValueError`, not the `SchemaValidationError` the claim
names for this case. -/
theorem consolidate_repair_counterexample :
    (consolidate (fun _ => some emptyValidDoc) "u" 1).2 = Except.error ConsErr.emptyDoc
    ∧ isSchemaErrorB (consolidate (fun _ => some emptyValidDoc) "u" 1).2 = false :=
  ⟨rfl, rfl⟩

/-- C2 (amended): when all three attempts fail and the repair response's
default-filled document also fails the validation check with the coercion
fallback failing too, `consolidate_openai` raises without further retry — a
`SchemaValidationError` carrying the default-filled document when it is
schema-invalid, but the empty-document `ValueError` when it is schema-valid
and merely lacks any non-empty items list. -/
theorem consolidate_repair_fatal (resp : Nat → Option Json) (u : String)
    (t : ℚ) (d : Json)
    (h0 : attemptResult (resp 0) = none)
    (h1 : attemptResult (resp 1) = none)
    (h2 : attemptResult (resp 2) = none)
    (h3 : resp 3 = some d)
    (hv : validMin (ensure_required_defaults d) = false)
    (hc : coerceFails (ensure_required_defaults d) = true) :
    (consolidate resp u t).2
      = (if is_valid_release (ensure_required_defaults d)
         then Except.error ConsErr.emptyDoc
         else Except.error (ConsErr.schemaError (ensure_required_defaults d))) := by
  have hal : (attemptsLoop resp u t 0 3).2 = none := by
    obtain ⟨m, hm, hphs, hres⟩ := attemptsLoop_char resp u t 3 0
    rcases hres with ⟨hnone, _, _⟩ | ⟨d', hsome, hpos, hlast, _⟩
    · exact hnone
    · exfalso
      have hcase : m - 1 = 0 ∨ m - 1 = 1 ∨ m - 1 = 2 := by omega
      rcases hcase with h | h | h <;> rw [h] at hlast <;>
        simp only [Nat.zero_add] at hlast
      · rw [h0] at hlast
        cases hlast
      · rw [h1] at hlast
        cases hlast
      · rw [h2] at hlast
        cases hlast
  rw [consolidate_snd, hal]
  show repairResult (resp 3) = _
  rw [h3]
  exact repairResult_fatal d hv hc

/-- Witness for C2 at the all-empty-response scenario, where the
schema-valid branch of the amended statement fires. -/
theorem consolidate_repair_fatal_witness :
    (consolidate (fun _ => some emptyValidDoc) "u" 1).2
      = (if is_valid_release (ensure_required_defaults emptyValidDoc)
         then Except.error ConsErr.emptyDoc
         else Except.error (ConsErr.schemaError (ensure_required_defaults emptyValidDoc))) :=
  consolidate_repair_fatal (fun _ => some emptyValidDoc) "u" 1 emptyValidDoc
    rfl rfl rfl rfl rfl rfl

/-! ## Claim C3 -/

/-- Counterexample to C3: a document carrying the legacy key `Features`
whose item is not a mapping makes `_coerce_legacy` raise instead of
producing a schema-valid document. -/
theorem coerce_legacy_grouping_counterexample :
    hasLegacyKeyB [("Features", Json.arr [Json.num 5])] = true
    ∧ exceptIsOk (coerce_legacy (.obj [("Features", Json.arr [Json.num 5])])) = false :=
  ⟨rfl, rfl⟩

/-- C3 (amended): on documents with a legacy key whose category values are
well-formed (sequences of mappings with string-or-falsy titles and
descriptions), `_coerce_legacy` returns exactly the characterized document —
one section per category per repository grouped by URL-parsed repository in
first-touch order (sentinel for unparseable URLs, title/description fallback
text, positive parsed number as `prs`), the other three fields empty — and
that document is schema-valid; the spec's round-trip example coerces to the
expected document, which passes schema and minimal-content checks. -/
theorem coerce_legacy_grouping (kvs : List (String × Json))
    (hkey : hasLegacyKeyB kvs = true) (hwf : legacyWF kvs = true) :
    coerce_legacy (.obj kvs) = .ok (coercedDoc kvs)
    ∧ is_valid_release (coercedDoc kvs) = true
    ∧ coerce_legacy (.obj exLegacyKvs) = .ok exLegacyOut
    ∧ is_valid_release exLegacyOut = true
    ∧ has_minimal_content exLegacyOut = true :=
  ⟨coerce_legacy_ok_char kvs hkey hwf, coercedDoc_valid kvs hwf, rfl, rfl, rfl⟩

/-- Witness for C3 at the spec's round-trip example. -/
theorem coerce_legacy_grouping_witness :
    coerce_legacy (.obj exLegacyKvs) = .ok (coercedDoc exLegacyKvs)
    ∧ is_valid_release (coercedDoc exLegacyKvs) = true :=
  ⟨(coerce_legacy_grouping exLegacyKvs rfl rfl).1,
   (coerce_legacy_grouping exLegacyKvs rfl rfl).2.1⟩

/-! ## Claim C10 -/

/-- Counterexample to C10: `_coerce_legacy` can raise even when a legacy key
is present — a present `Features` key with a malformed (non-mapping) item
raises, so "raises exactly when none of the keys is present" fails. -/
theorem coerce_legacy_trigger_counterexample :
    hasLegacyKeyB [("Features", Json.arr [Json.num 5])] = true
    ∧ coerce_legacy (.obj [("Features", Json.arr [Json.num 5])]) = .error () :=
  ⟨rfl, rfl⟩

/-- C10 (amended): `_coerce_legacy` raises whenever none of `Features`,
`Fixes`, `Chore` is present (also on non-mapping documents); on well-formed
legacy inputs with such a key it succeeds, and the harvest then also covers
the `Breaking Changes`, `Performance` and `Docs` keys: every item found under
them lands in a section bearing that category title under its parsed
repository. -/
theorem coerce_legacy_trigger (kvs : List (String × Json)) :
    (hasLegacyKeyB kvs = false → coerce_legacy (.obj kvs) = .error ())
    ∧ (∀ j : Json, (∀ kv, j ≠ Json.obj kv) → coerce_legacy j = .error ())
    ∧ (legacyWF kvs = true → hasLegacyKeyB kvs = true →
        coerce_legacy (.obj kvs) = .ok (coercedDoc kvs)
        ∧ ∀ cat ∈ ["Breaking Changes", "Performance", "Docs"],
            ∀ p ∈ catItemsD kvs cat,
              p.2 ∈ itemsFor kvs cat p.1
              ∧ sectionJson cat (itemsFor kvs cat p.1) ∈ sectionsFor kvs p.1) := by
  refine ⟨?_, ?_, ?_⟩
  · intro hk
    simp only [coerce_legacy, hk]
    rfl
  · intro j hj
    cases j with
    | obj kv => exact absurd rfl (hj kv)
    | null => rfl
    | bool b => rfl
    | num n => rfl
    | str s => rfl
    | arr xs => rfl
  · intro hwf hkey
    refine ⟨coerce_legacy_ok_char kvs hkey hwf, ?_⟩
    intro cat hcat p hp
    have hmemf : p ∈ (catItemsD kvs cat).filter (fun q => q.1 == p.1) :=
      List.mem_filter.mpr ⟨hp, by simp⟩
    have hmm : p.2 ∈ itemsFor kvs cat p.1 := List.mem_map.mpr ⟨p, hmemf, rfl⟩
    refine ⟨hmm, ?_⟩
    unfold sectionsFor
    rw [List.mem_flatten]
    have hne : (itemsFor kvs cat p.1).isEmpty = false := by
      cases hie : itemsFor kvs cat p.1 with
      | nil => rw [hie] at hmm; cases hmm
      | cons a t => rfl
    refine ⟨if (itemsFor kvs cat p.1).isEmpty = true then []
      else [sectionJson cat (itemsFor kvs cat p.1)],
      List.mem_map.mpr ⟨cat, ?_, rfl⟩, ?_⟩
    · simp only [List.mem_cons, List.not_mem_nil, or_false] at hcat
      rcases hcat with rfl | rfl | rfl <;> simp [CATEGORY_TITLES]
    · rw [if_neg (by simp [hne])]
      exact List.mem_singleton.mpr rfl

/-- Witness for C10: the harvest facts at a document whose only non-trigger
content sits under `Docs`. -/
theorem coerce_legacy_trigger_witness :
    coerce_legacy (.obj exDocsKvs) = .ok (coercedDoc exDocsKvs)
    ∧ Json.obj [("text", Json.str "d"), ("prs", Json.arr [Json.num 2])]
        ∈ itemsFor exDocsKvs "Docs" "a/b" := by
  have h := (coerce_legacy_trigger exDocsKvs).2.2 rfl rfl
  refine ⟨h.1, ?_⟩
  have hm := (h.2 "Docs" (by simp)
    ("a/b", Json.obj [("text", Json.str "d"), ("prs", Json.arr [Json.num 2])])
    (List.mem_singleton.mpr rfl)).1
  exact hm

/-! ## Claim C9 -/

/-- Counterexample to C9: `_product_for_repo` can return `"Webapp"` after
all — the no-match fallthrough echoes the repository full name, so the input
`"Webapp"` itself maps to `"Webapp"`. -/
theorem product_for_repo_webapp_counterexample :
    product_for_repo "Webapp" = "Webapp" := by rfl

/-- C9 (amended): `_product_for_repo` returns `"Webapp"` only when the input
full name is itself the literal `"Webapp"` (via the final fallthrough); in
particular the dedicated `"Webapp"` suffix rule is unreachable, because every
name ending in `"/ya-webapp"` is already captured by the first rule and
mapped to `"Syrup"`. -/
theorem product_for_repo_webapp_unreachable :
    (∀ s : String, product_for_repo s = "Webapp" → s = "Webapp")
    ∧ (∀ s : String, pyEnds (pyLower s) "/ya-webapp" = true →
        product_for_repo s = "Syrup") := by
  constructor
  · intro s h
    simp only [product_for_repo] at h
    split_ifs at h with h1 h2 h3 h4
    · exact absurd h (by decide)
    · exact absurd h (by decide)
    · exact absurd h (by decide)
    · simp only [Bool.or_eq_true] at h1
      exact absurd (Or.inl h4) h1
    · exact h
  · intro s h
    simp only [product_for_repo, h]
    simp

/-- Witness for C9: both parts of the amended statement applied at concrete
inputs, with the hypotheses evaluated. -/
theorem product_for_repo_webapp_unreachable_witness :
    "Webapp" = "Webapp" ∧ product_for_repo "o/ya-webapp" = "Syrup" :=
  ⟨product_for_repo_webapp_unreachable.1 "Webapp" rfl,
   product_for_repo_webapp_unreachable.2 "o/ya-webapp" rfl⟩

/-! ## Claim C7 -/

/-- C7: on documents whose `tldr` has more than ten entries, the rendered
lines are the title block, the focus-areas heading, then exactly ten bullet
lines (the first ten entries, extras dropped), a blank line, and the rest of
the document. -/
theorem render_md_tldr_capped (doc : ReleaseDocument) (today : String)
    (h : 10 < doc.tldr.length) :
    renderLines doc today
      = ["# " ++ renderTitle doc ++ " (" ++ today ++ ")", "",
         "Focus areas for the week:"]
        ++ (doc.tldr.take 10).map (fun b => "- " ++ b)
        ++ [""] ++ productLines doc ++ upgradeLines doc
    ∧ ((doc.tldr.take 10).map (fun b => "- " ++ b)).length = 10 := by
  have hne : doc.tldr.isEmpty = false := by
    cases htl : doc.tldr with
    | nil => rw [htl] at h; simp at h
    | cons a t => rfl
  constructor
  · simp [renderLines, headerLines, hne]
  · rw [List.length_map, List.length_take]
    omega

/-- Witness for C7 at a document with eleven `tldr` entries. -/
theorem render_md_tldr_capped_witness :
    10 < (ReleaseDocument.mk none
      ["1", "2", "3", "4", "5", "6", "7", "8", "9", "10", "11"] [] [] []).tldr.length
    ∧ (((ReleaseDocument.mk none
      ["1", "2", "3", "4", "5", "6", "7", "8", "9", "10", "11"] [] [] []).tldr.take 10).map
        (fun b => "- " ++ b)).length = 10 :=
  ⟨by decide,
   (render_md_tldr_capped (ReleaseDocument.mk none
     ["1", "2", "3", "4", "5", "6", "7", "8", "9", "10", "11"] [] [] [])
     "2026-01-01" (by decide)).2⟩

/-! ## Claim C4 -/

/-- Counterexample to C4: the title `"fix!: repair retry loop"` has `!` in
its first space-delimited token, so the record is breaking — but the
conventional-commit override runs after the breaking default and sets the
category to `"Fixes"`, not `"Features"`. -/
theorem classify_breaking_counterexample :
    (firstToken "fix!: repair retry loop").contains '!' = true
    ∧ (classify ⟨"fix!: repair retry loop", [], ""⟩).is_breaking = true
    ∧ (classify ⟨"fix!: repair retry loop", [], ""⟩).category = "Fixes" :=
  ⟨rfl, rfl, rfl⟩

/-- C4 (amended): when the first space-delimited token of the title contains
`!`, `classify` marks the record breaking regardless of labels, and the
category is `"Features"` regardless of labels provided the title carries no
conventional-commit override other than `feat` (an overriding `fix`, `perf`,
`docs`, `chore` or `refactor` title wins over the breaking default). -/
theorem classify_breaking_first_token (pr : PRrec)
    (h : (firstToken pr.title).contains '!' = true) :
    (classify pr).is_breaking = true
    ∧ (((detect_conventional pr.title).getD "" = ""
        ∨ (detect_conventional pr.title).getD "" = "feat") →
       (classify pr).category = "Features") := by
  have hne : pr.title.data.isEmpty = false := by
    cases hd : pr.title.data with
    | nil =>
      exfalso
      have hft : firstToken pr.title = [] := by
        unfold firstToken
        rw [hd]
        rfl
      rw [hft] at h
      simp at h
    | cons a t => rfl
  have hb : breakingOf pr = true := by
    have hmem : '!' ∈ firstToken pr.title := by simpa using h
    unfold breakingOf
    rw [hne]
    simp [hmem]
  constructor
  · show breakingOf pr = true
    exact hb
  · intro hconv
    show convOverride ((detect_conventional pr.title).getD "")
      (labelCat (pr.labels.map pyLower) (breakingOf pr)) = "Features"
    have hcat : labelCat (pr.labels.map pyLower) (breakingOf pr) = "Features" := by
      rw [hb]
      rfl
    rw [hcat]
    rcases hconv with hc | hc <;> rw [hc] <;> rfl

/-- Witness for C4 on a breaking title with no conventional prefix and a
contrary label. -/
theorem classify_breaking_first_token_witness :
    (classify ⟨"Add! concurrency", ["bug"], ""⟩).is_breaking = true
    ∧ (classify ⟨"Add! concurrency", ["bug"], ""⟩).category = "Features" :=
  ⟨(classify_breaking_first_token ⟨"Add! concurrency", ["bug"], ""⟩ rfl).1,
   (classify_breaking_first_token ⟨"Add! concurrency", ["bug"], ""⟩ rfl).2 (Or.inl rfl)⟩

/-! ## Claim C5 -/

/-- Counterexample to C5: labels `{"perf", "feature"}` with no
conventional-commit prefix classify as `"Features"`, because the
feature-label rule is an earlier branch of the same `elif` chain. -/
theorem classify_perf_counterexample :
    detect_conventional "Update deps" = none
    ∧ (classify ⟨"Update deps", ["perf", "feature"], ""⟩).category = "Features" :=
  ⟨rfl, rfl⟩

/-- C5 (amended): a label set containing `perf` or `performance` yields
category `"Fixes"` when the title has no conventional-commit prefix, the
record is not breaking, and no feature-mapping label (`feature`,
`enhancement`, `type:feat`, `feat`) is present. -/
theorem classify_perf_label_fixes (pr : PRrec)
    (hperf : (pr.labels.map pyLower).contains "perf" = true
      ∨ (pr.labels.map pyLower).contains "performance" = true)
    (hconv : detect_conventional pr.title = none)
    (hbreak : (classify pr).is_breaking = false)
    (hfeat : ∀ l ∈ ["feature", "enhancement", "type:feat", "feat"],
      (pr.labels.map pyLower).contains l = false) :
    (classify pr).category = "Fixes" := by
  have hb : breakingOf pr = false := hbreak
  have h1 := hfeat "feature" (by simp)
  have h2 := hfeat "enhancement" (by simp)
  have h3 := hfeat "type:feat" (by simp)
  have h4 := hfeat "feat" (by simp)
  show convOverride ((detect_conventional pr.title).getD "")
    (labelCat (pr.labels.map pyLower) (breakingOf pr)) = "Fixes"
  rw [hconv]
  have hcat : labelCat (pr.labels.map pyLower) (breakingOf pr) = "Fixes" := by
    unfold labelCat
    rw [hb]
    simp only [List.any_cons, List.any_nil, h1, h2, h3, h4, Bool.or_self,
      Bool.or_false, Bool.false_or, Bool.false_eq_true, if_false]
    by_cases hbug : (["bug", "fix", "type:bug"].any (pr.labels.map pyLower).contains) = true
    · simp only [List.any_cons, List.any_nil, Bool.or_false] at hbug
      rw [if_pos hbug]
    · simp only [List.any_cons, List.any_nil, Bool.or_false] at hbug
      rw [if_neg hbug]
      have hp : ((pr.labels.map pyLower).contains "perf"
          || (pr.labels.map pyLower).contains "performance") = true := by
        rcases hperf with hp | hp
        · rw [hp]
          rfl
        · rw [hp]
          simp only [Bool.or_false, Bool.or_true]
      rw [if_pos hp]
  rw [hcat]
  rfl

/-- Witness for C5 at a pure `perf`-labelled record. -/
theorem classify_perf_label_fixes_witness :
    (classify ⟨"Update deps", ["perf"], ""⟩).category = "Fixes" :=
  classify_perf_label_fixes ⟨"Update deps", ["perf"], ""⟩ (Or.inl rfl) rfl rfl
    (by decide)

end RNB
